import Mathlib

/-!
# soda_pop: the room relay of `src/_worker.js`

A shallow embedding of `RoomDurableObject` (the registry `this.clients`, the methods
`broadcast`, `prune`, `snapshotTick`, and the three closures installed by `fetch` on every
accepted WebSocket: the heartbeat callback, the `message` listener and the `close` listener),
followed by theorems about it.

Modelling conventions.
* A JS `Map` is an association list in insertion order with pairwise distinct keys
  (`Registry`); `set` on a present key keeps its position, `delete` removes the key.
* A WebSocket handle is a number (`Conn`). Calls on a socket (`send`, `close`) are recorded in a
  log of attempts; an oracle `fails` decides, attempt by attempt, whether the call throws.
  Every such call of the source sits in a `try`/`catch` whose handler is empty.
* A value of type `Json` is a JavaScript value as `JSON.parse` returns it. The input of the
  `message` listener is the outcome of `JSON.parse(ev.data)` (`none` when it throws).
* A number is known by the observations the code makes of it (`Num`): whether it is zero,
  whether it is finite, the text `String(n)`, and whether it is `-0`.
* The text of an outgoing frame is identified with the JSON value it denotes: `send ws t`
  records the value `t` that the text passed to `ws.send` reads back as. `Json.stringify v` is
  that value for the text `JSON.stringify(v)`; it differs from `v` only where `v` holds a number
  that is not finite, which is written `null`, or `-0`, which is written `0`.
* Resource limits of the engine (stack depth, memory) are not modelled.
* `Date.now()` is an integer parameter `now`.
-/

namespace SodaPop

/-! ## JSON values -/

/-- A number as `JSON.parse` returns it (a double that is not NaN), known by what the code
observes of it: `isZero` for `+0` and `-0` (the falsy numbers; a literal such as `1e-400` parses
to zero), `isFinite` (false for `±Infinity`, which a literal such as `1e999` parses to, and
which `JSON.stringify` writes as `null`), `text`, the string `String(n)`, and `negZero` for
`-0` (which `JSON.stringify` writes as `0`). -/
structure Num where
  isZero : Bool
  isFinite : Bool
  text : String
  negZero : Bool
deriving DecidableEq

/-- The number `0`. -/
def Num.zero : Num := ⟨true, true, "0", false⟩

/-- The number `-0`. -/
def Num.minusZero : Num := ⟨true, true, "0", true⟩

/-- The number `1`. -/
def Num.one : Num := ⟨false, true, "1", false⟩

/-- The number `2`. -/
def Num.two : Num := ⟨false, true, "2", false⟩

/-- The number `Infinity`, as parsed from the literal `1e999`. -/
def Num.infinity : Num := ⟨false, false, "Infinity", false⟩

/-- The number `1e21`, whose text is in exponent form. -/
def Num.tenTo21 : Num := ⟨false, true, "1e+21", false⟩

instance : OfNat Num 0 := ⟨Num.zero⟩

instance : OfNat Num 1 := ⟨Num.one⟩

instance : OfNat Num 2 := ⟨Num.two⟩

/-- JavaScript values as produced by `JSON.parse`; an object is the list of its own
properties. -/
inductive Json where
  | null : Json
  | bool (b : Bool) : Json
  | num (n : Num) : Json
  | str (s : String) : Json
  | arr (xs : List Json) : Json
  | obj (kvs : List (String × Json)) : Json

namespace Json

/-- JS truthiness of a JSON value: `null`, `false`, `0` and `""` are falsy. -/
def truthy : Json → Bool
  | null => false
  | bool b => b
  | num n => !n.isZero
  | str s => s != ""
  | arr _ => true
  | obj _ => true

/-- Test `v === null`. -/
def isNull : Json → Bool
  | null => true
  | _ => false

/-- Test that an object has an own property of the given name. -/
def hasKey : List (String × Json) → String → Bool
  | [], _ => false
  | (k', _) :: rest, k => decide (k' = k) || hasKey rest k

mutual
/-- JS `String(v)`, `none` when it throws. A number gives its text; an array is joined with
commas (a `null` element gives the empty string); an object gives `[object Object]`, unless it
has an own property `toString` (never callable in a parsed value), in which case the
conversion throws a `TypeError`. -/
def toStr : Json → Option String
  | null => some "null"
  | bool true => some "true"
  | bool false => some "false"
  | num n => some n.text
  | str s => some s
  | arr xs => joinStr xs
  | obj kvs => if hasKey kvs "toString" then none else some "[object Object]"
termination_by structural x => x
/-- JS `Array.prototype.join(",")` on the elements of an array, `none` when the conversion of
an element throws. -/
def joinStr : List Json → Option String
  | [] => some ""
  | x :: rest =>
    match (match x with
      | null => some ""
      | y => toStr y), joinStr rest with
    | some a, some b => some (a ++ (match rest with | [] => "" | _ => ",") ++ b)
    | _, _ => none
termination_by structural x => x
end

mutual
/-- The value that the text `JSON.stringify(v)` denotes: `v` itself, with every number that is
not finite replaced by `null` and every `-0` by `0`, at any depth. -/
def stringify : Json → Json
  | null => null
  | bool b => bool b
  | num n => if n.isFinite then (if n.negZero then num Num.zero else num n) else null
  | str s => str s
  | arr xs => arr (stringifyList xs)
  | obj kvs => obj (stringifyMembers kvs)
termination_by structural x => x
/-- Elements of an array as `JSON.stringify` writes them. -/
def stringifyList : List Json → List Json
  | [] => []
  | x :: rest => stringify x :: stringifyList rest
termination_by structural x => x
/-- Properties of an object as `JSON.stringify` writes them. -/
def stringifyMembers : List (String × Json) → List (String × Json)
  | [] => []
  | (k, v) :: rest => (k, stringify v) :: stringifyMembers rest
termination_by structural x => x
end

mutual
/-- Every number held by the value, at any depth, is written as itself by `JSON.stringify`:
it is finite and is not `-0`. -/
def exact : Json → Bool
  | null => true
  | bool _ => true
  | num n => n.isFinite && !n.negZero
  | str _ => true
  | arr xs => exactList xs
  | obj kvs => exactMembers kvs
termination_by structural x => x
/-- Every number held by the elements is written as itself. -/
def exactList : List Json → Bool
  | [] => true
  | x :: rest => exact x && exactList rest
termination_by structural x => x
/-- Every number held by the properties is written as itself. -/
def exactMembers : List (String × Json) → Bool
  | [] => true
  | (_, v) :: rest => exact v && exactMembers rest
termination_by structural x => x
end

/-- Last binding of a key in the members of a parsed object (a later duplicate wins). -/
def lookupLast : List (String × Json) → String → Option Json
  | [], _ => none
  | (k', v) :: rest, k =>
    match lookupLast rest k with
    | some w => some w
    | none => if k' = k then some v else none

/-- Property read `msg.key` on a non-null value, for the keys `type`, `id`, `state` the
handler reads: an own member of an object, `undefined` (`none`) on anything else. -/
def prop : Json → String → Option Json
  | obj kvs, k => lookupLast kvs k
  | _, _ => none

end Json

/-- Test `v === t` for a possibly `undefined` property `v` and a string literal `t`. -/
def strictEqStr : Option Json → String → Bool
  | some (.str s), t => decide (s = t)
  | _, _ => false

/-- Truthiness of a possibly `undefined` property. -/
def optTruthy : Option Json → Bool
  | none => false
  | some v => v.truthy

/-- Truthiness of the closure variable `clientId` (`null` or a string). -/
def idTruthy : Option String → Bool
  | none => false
  | some s => s != ""

/-! ## Wire messages built by the server -/

/-- Payload `{type:'goodbye', id}`. -/
def goodbyeMsg (id : String) : Json :=
  .obj [("type", .str "goodbye"), ("id", .str id)]

/-- Payload `{type:'state', clients}`. -/
def stateMsg (clients : List Json) : Json :=
  .obj [("type", .str "state"), ("clients", .arr clients)]

/-- Value denoted by the literal text `{"type":"ping"}`. -/
def pingMsg : Json :=
  .obj [("type", .str "ping")]

/-! ## Sockets and the log of attempted calls -/

/-- WebSocket handle (`server` of one accepted pair). -/
abbrev Conn := Nat

/-- Call made on a socket; the text of a `send` is given by the value it denotes. -/
inductive Effect where
  | send (ws : Conn) (text : Json) : Effect
  | close (ws : Conn) (code : Nat) (reason : String) : Effect

/-- Attempted call together with its outcome (`threw = true` when it raised). -/
structure Attempt where
  effect : Effect
  threw : Bool

/-- Trace of all attempted socket calls, oldest first. -/
abbrev Log := List Attempt

/-- Failure oracle: the call number `n` of the trace throws iff `fails n`. -/
abbrev Oracle := Nat → Bool

/-- Perform a socket call: it is appended to the trace, and the result says whether it threw. -/
def attempt (fails : Oracle) (e : Effect) (log : Log) : Bool × Log :=
  (fails log.length, log ++ [⟨e, fails log.length⟩])

/-- Call `ws.send(text)`, the text being given by the value it denotes. -/
def wsSend (fails : Oracle) (ws : Conn) (text : Json) (log : Log) : Bool × Log :=
  attempt fails (.send ws text) log

/-- Call `ws.close(code, reason)`. -/
def wsClose (fails : Oracle) (ws : Conn) (code : Nat) (reason : String) (log : Log) :
    Bool × Log :=
  attempt fails (.close ws code reason) log

/-! ## The registry `this.clients` -/

/-- Value stored in the map: `{ws, lastSeen, state}`. -/
structure Session where
  ws : Conn
  lastSeen : Int
  state : Json

/-- The map `this.clients`, in insertion order. -/
abbrev Registry := List (String × Session)

/-- Keys of the map in iteration order. -/
def keys (r : Registry) : List String := r.map Prod.fst

/-- JS `Map.prototype.set`: overwrite in place, or append. -/
def mapSet : Registry → String → Session → Registry
  | [], k, v => [(k, v)]
  | (k', v') :: rest, k, v =>
    if k' = k then (k, v) :: rest else (k', v') :: mapSet rest k v

/-- JS `Map.prototype.delete`. -/
def mapDelete (r : Registry) (k : String) : Registry :=
  r.filter (fun e => !decide (e.1 = k))

/-- JS `Map.prototype.get` (`undefined` is `none`). -/
def mapGet : Registry → String → Option Session
  | [], _ => none
  | (k', v') :: rest, k => if k' = k then some v' else mapGet rest k

/-- JS `Map.prototype.has`. -/
def mapHas (r : Registry) (k : String) : Bool := (mapGet r k).isSome

/-! ## `RoomDurableObject` -/

/-- State of one room object: the map `this.clients`, and the trace of socket calls made so
far (the outside world as the room sees it). -/
structure RoomDurableObject where
  clients : Registry
  log : Log

namespace RoomDurableObject

/-- Loop of `broadcast`: `for (const [id, c] of this.clients)`, skipping `exceptId`, each
send in its own `try/catch`. -/
def broadcastLoop (fails : Oracle) (text : Json) (exceptId : Option String) :
    List (String × Session) → Log → Log
  | [], log => log
  | (id, c) :: rest, log =>
    if some id = exceptId then broadcastLoop fails text exceptId rest log
    else broadcastLoop fails text exceptId rest (wsSend fails c.ws text log).2

/-- Method `broadcast(payload, exceptId)`: the text is `JSON.stringify(payload)`, computed
once. -/
def broadcast (fails : Oracle) (self : RoomDurableObject) (payload : Json)
    (exceptId : Option String) : RoomDurableObject :=
  { self with log := broadcastLoop fails payload.stringify exceptId self.clients self.log }

/-- Loop of `prune` over the copy `[...this.clients]`. -/
def pruneLoop (fails : Oracle) (now : Int) :
    List (String × Session) → RoomDurableObject → RoomDurableObject
  | [], self => self
  | (id, c) :: rest, self =>
    if now - c.lastSeen > 20000 then
      let closed : RoomDurableObject :=
        { self with log := (wsClose fails c.ws 1001 "timeout" self.log).2 }
      let deleted : RoomDurableObject :=
        { closed with clients := mapDelete closed.clients id }
      pruneLoop fails now rest (broadcast fails deleted (goodbyeMsg id) none)
    else pruneLoop fails now rest self

/-- Method `prune()`, with `now = Date.now()`. -/
def prune (fails : Oracle) (now : Int) (self : RoomDurableObject) : RoomDurableObject :=
  pruneLoop fails now self.clients self

/-- Loop `for (const [id, c] of this.clients) if (c.state) clients.push(c.state)`. -/
def collectStates : List (String × Session) → List Json
  | [] => []
  | (_, c) :: rest =>
    if c.state.truthy then c.state :: collectStates rest else collectStates rest

/-- Method `snapshotTick()`. -/
def snapshotTick (fails : Oracle) (self : RoomDurableObject) : RoomDurableObject :=
  broadcast fails self (stateMsg (collectStates self.clients)) none

/-- Callback of `setInterval` for the connection `server`. -/
def heartbeat (fails : Oracle) (server : Conn) (now : Int) (self : RoomDurableObject) :
    RoomDurableObject :=
  let pinged : RoomDurableObject := { self with log := (wsSend fails server pingMsg self.log).2 }
  snapshotTick fails (prune fails now pinged)

/-- Listener of `message` for the connection `server`; `parsed` is the outcome of
`JSON.parse(ev.data)`, `clientId` the closure variable, returned with its new value. The
whole body is inside `try/catch`: a throw abandons the rest of the body and keeps what was
already written (`JSON.parse` throwing, `null.type`, `String(msg.id)` throwing before
`clientId` is assigned, the final `send` throwing). -/
def onMessage (fails : Oracle) (server : Conn) (now : Int) (parsed : Option Json)
    (self : RoomDurableObject) (clientId : Option String) :
    RoomDurableObject × Option String :=
  match parsed with
  | none => (self, clientId)
  | some .null => (self, clientId)
  | some msg =>
    if strictEqStr (msg.prop "type") "hello" && optTruthy (msg.prop "id") then
      match ((msg.prop "id").getD .null).toStr with
      | none => (self, clientId)
      | some newId =>
        let clients := mapSet self.clients newId ⟨server, now, .null⟩
        let log :=
          (wsSend fails server (stateMsg (collectStates clients)).stringify self.log).2
        (⟨clients, log⟩, some newId)
    else if strictEqStr (msg.prop "type") "update" && idTruthy clientId
        && optTruthy (msg.prop "state") then
      let id : String := clientId.getD ""
      let state : Json := (msg.prop "state").getD .null
      match mapGet self.clients id with
      | some c =>
        let touched : RoomDurableObject :=
          { self with clients := mapSet self.clients id { c with lastSeen := now, state := state } }
        (broadcast fails touched (stateMsg [state]) (some id), clientId)
      | none => (self, clientId)
    else (self, clientId)

/-- Listener of `close` (the `clearInterval` belongs to the event layer below). -/
def onClose (fails : Oracle) (self : RoomDurableObject) (clientId : Option String) :
    RoomDurableObject :=
  if idTruthy clientId && mapHas self.clients (clientId.getD "") then
    broadcast fails { self with clients := mapDelete self.clients (clientId.getD "") }
      (goodbyeMsg (clientId.getD "")) none
  else self

end RoomDurableObject

open RoomDurableObject

/-! ## Vocabulary of the statements -/

/-- Outcomes given by the oracle to a run of consecutive calls, the first being call `n`. -/
def stamp (fails : Oracle) : Nat → List Effect → Log
  | _, [] => []
  | n, e :: es => ⟨e, fails n⟩ :: stamp fails (n + 1) es

/-- The calls of a trace, outcomes dropped. -/
def calls (log : Log) : List Effect := log.map Attempt.effect

/-- Sessions a broadcast with `exceptId` addresses. -/
def recipients (r : Registry) (exceptId : Option String) : Registry :=
  r.filter (fun e => !decide (some e.1 = exceptId))

/-- One `send` of `payload` per session of the list, on that session's socket. -/
def sendsTo (r : Registry) (payload : Json) : List Effect :=
  r.map (fun e => Effect.send e.2.ws payload)

/-- Snapshot in the words of the specification: all state values that are not `None`, in
registry iteration order. -/
def snapshot (r : Registry) : List Json :=
  (r.map (fun e => e.2.state)).filter (fun v => !v.isNull)

/-- Every stored state is `null` or truthy (the only values the handlers ever store). -/
def statesOk (r : Registry) : Bool :=
  r.all (fun e => e.2.state.isNull || e.2.state.truthy)

/-- Idle test of the prune pass. -/
def idle (now : Int) (e : String × Session) : Bool :=
  decide (now - e.2.lastSeen > 20000)

/-- Registry left by the prune loop run over the copy `l` when the map holds `cur`. -/
def pruneKeep (now : Int) : List (String × Session) → Registry → Registry
  | [], cur => cur
  | e :: rest, cur =>
    if idle now e = true then pruneKeep now rest (mapDelete cur e.1) else pruneKeep now rest cur

/-- Socket calls of the prune loop run over the copy `l` when the map holds `cur`: for each
idle entry, the close of its socket, then the goodbye to the sessions left in the map. -/
def pruneCalls (now : Int) : List (String × Session) → Registry → List Effect
  | [], _ => []
  | e :: rest, cur =>
    if idle now e = true then
      Effect.close e.2.ws 1001 "timeout"
        :: (sendsTo (mapDelete cur e.1) (goodbyeMsg e.1) ++ pruneCalls now rest (mapDelete cur e.1))
    else pruneCalls now rest cur

/-- Test that a call is a `close`. -/
def Effect.isClose : Effect → Bool
  | .close _ _ _ => true
  | .send _ _ => false

/-! ## The event layer: one room, its accepted connections and the events it handles -/

/-- Id under which the `message` listener registers the sender, when the frame takes the
hello branch (`msg.type === 'hello' && msg.id`) and `String(msg.id)` does not throw. -/
def helloId : Option Json → Option String
  | none => none
  | some .null => none
  | some msg =>
    if strictEqStr (msg.prop "type") "hello" && optTruthy (msg.prop "id") then
      ((msg.prop "id").getD .null).toStr
    else none

/-- What is known of one accepted connection: the closure variable `clientId`, whether its
`close` listener has run (which also cleared its interval), and whether a prune pass has called
`close(1001, 'timeout')` on its socket since the last hello it registered. -/
structure ConnState where
  clientId : Option String
  closed : Bool
  timedOut : Bool

/-- One room together with the connections accepted so far (the handles below `accepted`). -/
structure System where
  room : RoomDurableObject
  conns : Conn → ConnState
  accepted : Nat

/-- Events of the single serialized stream of a room. -/
inductive Event where
  | accept : Event
  | message (c : Conn) (parsed : Option Json) (now : Int) : Event
  | tick (c : Conn) (now : Int) : Event
  | close (c : Conn) : Event

/-- Connection state right after `server.accept()`. -/
def freshConn : ConnState := ⟨none, false, false⟩

/-- Room before any connection. -/
def initSystem : System := ⟨⟨[], []⟩, fun _ => freshConn, 0⟩

/-- Replace the state of one connection. -/
def setConn (conns : Conn → ConnState) (c : Conn) (v : ConnState) : Conn → ConnState :=
  fun i => if i = c then v else conns i

/-- Sockets on which a list of calls attempts a `close`. -/
def closedSockets : List Effect → List Conn
  | [] => []
  | .close ws _ _ :: rest => ws :: closedSockets rest
  | .send _ _ :: rest => closedSockets rest

/-- The calls a step added to the trace. -/
def newCalls (before after : RoomDurableObject) : List Effect :=
  calls (after.log.drop before.log.length)

/-- An event can reach the listeners of connection `c`: the socket was accepted and its
`close` listener has not run yet (the runtime fires `close` once, and the listener clears the
interval). -/
def live (sys : System) (c : Conn) : Bool :=
  decide (c < sys.accepted) && !(sys.conns c).closed

/-- Handle one event. -/
def step (fails : Oracle) (sys : System) : Event → System
  | .accept =>
    { sys with conns := setConn sys.conns sys.accepted freshConn, accepted := sys.accepted + 1 }
  | .message c parsed now =>
    if live sys c = true then
      let out := onMessage fails c now parsed sys.room (sys.conns c).clientId
      { sys with
        room := out.1
        conns := setConn sys.conns c
          { sys.conns c with
            clientId := out.2
            timedOut := if (helloId parsed).isSome then false else (sys.conns c).timedOut } }
    else sys
  | .tick c now =>
    if live sys c = true then
      let room := heartbeat fails c now sys.room
      { sys with
        room := room
        conns := fun i =>
          if i ∈ closedSockets (newCalls sys.room room) then
            { sys.conns i with timedOut := true }
          else sys.conns i }
    else sys
  | .close c =>
    if live sys c = true then
      { sys with
        room := onClose fails sys.room (sys.conns c).clientId
        conns := setConn sys.conns c { sys.conns c with closed := true } }
    else sys

/-- Handle a sequence of events, one at a time. -/
def run (fails : Oracle) (sys : System) (evs : List Event) : System :=
  evs.foldl (step fails) sys

/-- Id a frame would register, for a message event (`none` for other events). -/
def Event.helloId : Event → Option String
  | .message _ parsed _ => SodaPop.helloId parsed
  | _ => none

/-! ## Sample values -/

/-- Oracle under which no call throws. -/
def noFail : Oracle := fun _ => false

/-- Oracle under which every call throws. -/
def allFail : Oracle := fun _ => true

/-- Room with `A` (socket 0, a stored state) and `B` (socket 1, no state yet), both seen at
time 0, and an empty trace. -/
def roomAB : RoomDurableObject :=
  ⟨[("A", ⟨0, 0, .obj [("x", .num 1)]⟩), ("B", ⟨1, 0, .null⟩)], []⟩

/-- Frame `{"type":"update","state":0}`. -/
def updateZero : Json := .obj [("type", .str "update"), ("state", .num 0)]

/-- Frame `{"type":"update","state":1e999}` as parsed: the state is `Infinity`. -/
def updateInfinity : Json := .obj [("type", .str "update"), ("state", .num Num.infinity)]

/-- Frame `{"type":"hello","id":{"toString":1}}`: a truthy id whose conversion to a string
throws. -/
def helloThrows : Json :=
  .obj [("type", .str "hello"), ("id", .obj [("toString", .num 1)])]

/-- Frame `{"type":"update","state":{"x":2}}`. -/
def updateX2 : Json := .obj [("type", .str "update"), ("state", .obj [("x", .num 2)])]

/-- Frame `{"type":"hello","id":"C"}`. -/
def helloC : Json := .obj [("type", .str "hello"), ("id", .str "C")]

/-- Room with `A` (socket 0, a stored state, last seen at 0) and `B` (socket 1, no state, last
seen at 15000), and an empty trace. -/
def roomIdle : RoomDurableObject :=
  ⟨[("A", ⟨0, 0, .obj [("x", .num 1)]⟩), ("B", ⟨1, 15000, .null⟩)], []⟩

/-- System with `roomIdle` and its two connections: socket 0 identified as `A`, socket 1 as
`B`, both live. -/
def sysIdle : System :=
  ⟨roomIdle, fun i => if i = 0 then ⟨some "A", false, false⟩ else ⟨some "B", false, false⟩, 2⟩

/-- Frame `{"type":"hello","id":"A"}`. -/
def helloA : Json := .obj [("type", .str "hello"), ("id", .str "A")]

/-! ## Vocabulary for the membership invariant -/

/-- The pairs (id, socket) held by the registry. -/
def bindings (r : Registry) : List (String × Conn) := r.map (fun e => (e.1, e.2.ws))

/-- No registry entry points to a connection whose close event was handled or that a prune
pass has closed. -/
def EntriesLive (sys : System) : Prop :=
  ∀ e, e ∈ sys.room.clients →
    (sys.conns e.2.ws).closed = false ∧ (sys.conns e.2.ws).timedOut = false

/-- Every accepted connection that has sent hello, is not closed and was not pruned has an
entry pointing to it. -/
def LiveHaveEntry (sys : System) : Prop :=
  ∀ c, c < sys.accepted → (sys.conns c).clientId ≠ none → (sys.conns c).closed = false →
    (sys.conns c).timedOut = false → ∃ e, e ∈ sys.room.clients ∧ e.2.ws = c

instance (sys : System) : Decidable (EntriesLive sys) := by
  unfold EntriesLive
  infer_instance

instance (sys : System) : Decidable (LiveHaveEntry sys) := by
  unfold LiveHaveEntry
  infer_instance

/-- Discipline of one event in a state: a frame taking the hello branch registers a non-empty
id, on a connection that has no id yet or already has this one, while no other connection whose
close event is still to come holds that id. Other events are unconstrained. -/
def eventOk (sys : System) : Event → Bool
  | .message c parsed _ =>
    match helloId parsed with
    | none => true
    | some id =>
      decide (id ≠ "")
      && decide ((sys.conns c).clientId = none ∨ (sys.conns c).clientId = some id)
      && (List.range sys.accepted).all (fun c' =>
          decide (c' = c) || (sys.conns c').closed
            || decide ((sys.conns c').clientId ≠ some id))
  | _ => true

/-- Discipline of a sequence of events, checked event by event along the run. -/
def disciplined (fails : Oracle) : System → List Event → Bool
  | _, [] => true
  | sys, ev :: rest => eventOk sys ev && disciplined fails (step fails sys ev) rest

/-- Frame `{"type":"hello","id":"B"}`. -/
def helloB : Json := .obj [("type", .str "hello"), ("id", .str "B")]

/-- Frame `{"type":"hello","id":[]}`: a truthy id whose string form is empty. -/
def helloEmptyArray : Json := .obj [("type", .str "hello"), ("id", .arr [])]

/-- One connection says hello as `A`, then as `B`, then closes. -/
def twoIdsThenClose : List Event :=
  [.accept, .message 0 (some helloA) 0, .message 0 (some helloB) 1, .close 0]

/-- Two connections say hello as `A`, then the first one closes. -/
def sameIdThenClose : List Event :=
  [.accept, .accept, .message 0 (some helloA) 0, .message 1 (some helloA) 1, .close 0]

/-- One connection says hello with the id `[]`, then closes. -/
def emptyIdThenClose : List Event :=
  [.accept, .message 0 (some helloEmptyArray) 0, .close 0]

/-- Two connections join as `A` and `B`, `A` publishes a state, one tick, then `A` closes. -/
def joinUpdateLeave : List Event :=
  [.accept, .accept, .message 0 (some helloA) 0, .message 1 (some helloB) 1,
   .message 0 (some updateX2) 2, .tick 1 5000, .close 0]

/-- Invariant carried along disciplined runs: registry entries and live identified
connections correspond one to one. -/
structure Inv (sys : System) : Prop where
  nodup : (keys sys.room.clients).Nodup
  entry : ∀ id w, (id, w) ∈ bindings sys.room.clients →
    w < sys.accepted ∧ (sys.conns w).clientId = some id
      ∧ (sys.conns w).closed = false ∧ (sys.conns w).timedOut = false
  conn : ∀ c id, c < sys.accepted → (sys.conns c).clientId = some id →
    (sys.conns c).closed = false → (sys.conns c).timedOut = false →
    (id, c) ∈ bindings sys.room.clients
  uniq : ∀ c c' id, c < sys.accepted → c' < sys.accepted →
    (sys.conns c).closed = false → (sys.conns c').closed = false →
    (sys.conns c).clientId = some id → (sys.conns c').clientId = some id → c = c'
  nonempty : ∀ c id, (sys.conns c).clientId = some id → id ≠ ""

/-- Frame `{"type":"hello"}`: a hello without id. -/
def helloNoId : Json := .obj [("type", .str "hello")]

/-- Frame `{"type":"update"}`: an update without state. -/
def updateNoState : Json := .obj [("type", .str "update")]

/-- Oracle under which only the first call of the trace throws. -/
def firstFails : Oracle := fun i => decide (i = 0)

/-- Value of the closure variable `clientId` after the `message` listener has handled a frame:
the id of the frame when it takes the hello branch, the former value otherwise. -/
def idAfter (parsed : Option Json) (cur : Option String) : Option String :=
  match helloId parsed with
  | some id => some id
  | none => cur

/-- Id of the latest accepted hello among the message events of connection `c` in a sequence
of events (`cur` when there is none). -/
def lastHello (c : Conn) : List Event → Option String → Option String
  | [], cur => cur
  | .message c' parsed _ :: rest, cur =>
    lastHello c rest (if c' = c then idAfter parsed cur else cur)
  | _ :: rest, cur => lastHello c rest cur

/-- One connection says hello as `A`, then as `B`. -/
def twoIds : List Event :=
  [.accept, .message 0 (some helloA) 0, .message 0 (some helloB) 1]

/-- Two connections say hello as `A`, socket 0 first. -/
def sameId : List Event :=
  [.accept, .accept, .message 0 (some helloA) 0, .message 1 (some helloA) 1]

/-- Two connections join as `A` (socket 0) and `B` (socket 1). -/
def joinAB : List Event :=
  [.accept, .accept, .message 0 (some helloA) 0, .message 1 (some helloB) 1]

/-- The frame is an update the listener accepts from an identified connection:
`msg.type === 'update'` and `msg.state` truthy. -/
def isUpdate : Option Json → Bool
  | none => false
  | some .null => false
  | some msg => strictEqStr (msg.prop "type") "update" && optTruthy (msg.prop "state")

/-- The event leaves the session of `A` alone: it is not a hello registering `A`, not an
accepted update on a connection identified as `A`, not the close of a connection identified as
`A`, and not a tick at which the session of `A` is idle. -/
def leavesAlone (A : String) (sys : System) : Event → Bool
  | .accept => true
  | .message c parsed _ =>
    decide (helloId parsed ≠ some A)
      && !(decide ((sys.conns c).clientId = some A) && isUpdate parsed)
  | .tick _ now =>
    match mapGet sys.room.clients A with
    | some s => decide (now - s.lastSeen ≤ 20000)
    | none => true
  | .close c => decide ((sys.conns c).clientId ≠ some A)

/-- Every event of the sequence leaves the session of `A` alone, checked along the run. -/
def leftAlone (fails : Oracle) (A : String) : System → List Event → Bool
  | _, [] => true
  | sys, ev :: rest => leavesAlone A sys ev && leftAlone fails A (step fails sys ev) rest

/-- The array `clients`, gathered from the registry `r`, holds `S` once for the session of
`A`: the registry has exactly one entry under `A`, it stores `S`, and the array is the states
gathered before that entry, then `S`, then the states gathered after it; when no other session
stores a value equal to `S`, the value `S` occurs nowhere else in the array. -/
def HoldsOnceFor (A : String) (S : Json) (r : Registry) (clients : List Json) : Prop :=
  ∃ pre post s, r = pre ++ (A, s) :: post ∧ A ∉ keys pre ∧ A ∉ keys post ∧ s.state = S
    ∧ clients = collectStates pre ++ S :: collectStates post
    ∧ ((∀ e, e ∈ r → e.1 ≠ A → e.2.state ≠ S) →
        S ∉ collectStates pre ∧ S ∉ collectStates post)

/-- Frame `{"type":"update","state":{"x":1}}`. -/
def updateX1 : Json := .obj [("type", .str "update"), ("state", .obj [("x", .num 1)])]

/-- `A` and `B` join in that order, then `A` publishes `{x:1}`. -/
def joinThenUpdate : List Event := joinAB ++ [.message 0 (some updateX1) 2]

/-- `A` and `B` join in that order, then `A` publishes the falsy state `0`. -/
def joinThenUpdateZero : List Event := joinAB ++ [.message 0 (some updateZero) 2]

/-- `A` and `B` join in that order, then both publish `{x:1}`. -/
def joinThenBothUpdate : List Event :=
  joinAB ++ [.message 0 (some updateX1) 2, .message 1 (some updateX1) 3]

/-! ## Lemmas on the trace -/

theorem stringify_goodbyeMsg (id : String) : (goodbyeMsg id).stringify = goodbyeMsg id := rfl

theorem stringify_stateMsg (cl : List Json) :
    (stateMsg cl).stringify = stateMsg (Json.stringifyList cl) := rfl

mutual
theorem stringify_of_exact : ∀ v : Json, v.exact = true → v.stringify = v
  | .null, _ => rfl
  | .bool _, _ => rfl
  | .num n, h => by
    simp only [Json.exact, Bool.and_eq_true, Bool.not_eq_true'] at h
    simp [Json.stringify, h.1, h.2]
  | .str _, _ => rfl
  | .arr xs, h => by
    simp only [Json.exact] at h
    simp only [Json.stringify, stringifyList_of_exact xs h]
  | .obj kvs, h => by
    simp only [Json.exact] at h
    simp only [Json.stringify, stringifyMembers_of_exact kvs h]
theorem stringifyList_of_exact :
    ∀ xs : List Json, Json.exactList xs = true → Json.stringifyList xs = xs
  | [], _ => rfl
  | x :: rest, h => by
    simp only [Json.exactList, Bool.and_eq_true] at h
    simp only [Json.stringifyList, stringify_of_exact x h.1, stringifyList_of_exact rest h.2]
theorem stringifyMembers_of_exact :
    ∀ kvs : List (String × Json), Json.exactMembers kvs = true → Json.stringifyMembers kvs = kvs
  | [], _ => rfl
  | (k, v) :: rest, h => by
    simp only [Json.exactMembers, Bool.and_eq_true] at h
    simp only [Json.stringifyMembers, stringify_of_exact v h.1,
      stringifyMembers_of_exact rest h.2]
end

theorem stamp_length (fails : Oracle) (n : Nat) (es : List Effect) :
    (stamp fails n es).length = es.length := by
  induction es generalizing n with
  | nil => rfl
  | cons e es ih => simp [stamp, ih]

theorem stamp_calls (fails : Oracle) (n : Nat) (es : List Effect) :
    calls (stamp fails n es) = es := by
  induction es generalizing n with
  | nil => rfl
  | cons e es ih =>
    have := ih (n + 1)
    simp only [calls] at this
    simp [stamp, calls, this]

theorem stamp_append (fails : Oracle) (n : Nat) (es fs : List Effect) :
    stamp fails n (es ++ fs) = stamp fails n es ++ stamp fails (n + es.length) fs := by
  induction es generalizing n with
  | nil => simp [stamp]
  | cons e es ih =>
    have h : n + 1 + es.length = n + (es.length + 1) := by omega
    simp [stamp, ih, h]

theorem broadcastLoop_eq (fails : Oracle) (text : Json) (exceptId : Option String)
    (r : Registry) (log : Log) :
    broadcastLoop fails text exceptId r log
      = log ++ stamp fails log.length (sendsTo (recipients r exceptId) text) := by
  induction r generalizing log with
  | nil => simp [broadcastLoop, recipients, sendsTo, stamp]
  | cons e rest ih =>
    obtain ⟨id, c⟩ := e
    by_cases h : some id = exceptId
    · simp only [broadcastLoop, h, if_true, ih]
      simp [recipients, sendsTo, h]
    · simp only [broadcastLoop, h, if_false, ih, wsSend, attempt]
      simp [recipients, sendsTo, h, stamp]

/-! ## Lemmas on the map -/

theorem mapGet_mapSet_same (r : Registry) (k : String) (v : Session) :
    mapGet (mapSet r k v) k = some v := by
  induction r with
  | nil => simp [mapSet, mapGet]
  | cons e rest ih =>
    obtain ⟨k', v'⟩ := e
    by_cases h : k' = k <;> simp [mapSet, mapGet, h, ih]

theorem mapGet_mapSet_other (r : Registry) (k k' : String) (v : Session) (h : k' ≠ k) :
    mapGet (mapSet r k v) k' = mapGet r k' := by
  induction r with
  | nil => simp [mapSet, mapGet, Ne.symm h]
  | cons e rest ih =>
    obtain ⟨k0, v0⟩ := e
    by_cases h0 : k0 = k
    · subst h0
      simp [mapSet, mapGet, Ne.symm h]
    · by_cases h1 : k0 = k'
      · subst h1
        simp [mapSet, mapGet, h0]
      · simp [mapSet, mapGet, h0, h1, ih]

theorem keys_mapSet (r : Registry) (k : String) (v : Session) :
    keys (mapSet r k v) = if mapHas r k = true then keys r else keys r ++ [k] := by
  induction r with
  | nil => simp [mapSet, keys, mapHas, mapGet]
  | cons e rest ih =>
    obtain ⟨k0, v0⟩ := e
    by_cases h0 : k0 = k
    · simp [mapSet, keys, mapHas, mapGet, h0]
    · simp only [mapSet, h0, if_false, keys, List.map_cons, mapHas, mapGet] at ih ⊢
      rw [ih]
      split <;> simp

theorem mapHas_iff_mem_keys (r : Registry) (k : String) :
    mapHas r k = true ↔ k ∈ keys r := by
  induction r with
  | nil => simp [mapHas, mapGet, keys]
  | cons e rest ih =>
    obtain ⟨k0, v0⟩ := e
    by_cases h0 : k0 = k
    · simp [mapHas, mapGet, keys, h0]
    · simp only [mapHas, mapGet, h0, if_false, keys, List.map_cons, List.mem_cons] at ih ⊢
      rw [ih]
      constructor
      · exact Or.inr
      · rintro (h | h)
        · exact absurd h.symm h0
        · exact h

theorem mapGet_mapDelete_same (r : Registry) (k : String) :
    mapGet (mapDelete r k) k = none := by
  induction r with
  | nil => simp [mapDelete, mapGet]
  | cons e rest ih =>
    obtain ⟨k0, v0⟩ := e
    by_cases h0 : k0 = k
    · simpa [mapDelete, h0] using ih
    · simpa [mapDelete, List.filter_cons, h0, mapGet] using ih

theorem mapGet_mapDelete_other (r : Registry) (k k' : String) (h : k' ≠ k) :
    mapGet (mapDelete r k) k' = mapGet r k' := by
  induction r with
  | nil => simp [mapDelete, mapGet]
  | cons e rest ih =>
    obtain ⟨k0, v0⟩ := e
    by_cases h0 : k0 = k
    · subst h0
      have h1 : ¬ k0 = k' := fun h1 => h h1.symm
      simpa [mapDelete, mapGet, h1] using ih
    · by_cases h1 : k0 = k'
      · subst h1
        simp [mapDelete, List.filter_cons, h0, mapGet]
      · simpa [mapDelete, List.filter_cons, h0, mapGet, h1] using ih

theorem recipients_none (r : Registry) : recipients r none = r := by
  simp [recipients]

theorem sendsTo_recipients_mapSet (r : Registry) (k : String) (c v : Session) (X : Option String)
    (p : Json) (hget : mapGet r k = some c) (hws : v.ws = c.ws) :
    sendsTo (recipients (mapSet r k v) X) p = sendsTo (recipients r X) p := by
  induction r with
  | nil => simp [mapGet] at hget
  | cons e rest ih =>
    obtain ⟨k0, v0⟩ := e
    by_cases h0 : k0 = k
    · simp only [mapGet, h0, if_true, Option.some.injEq] at hget
      subst hget
      subst h0
      by_cases hx : some k0 = X <;> simp [mapSet, recipients, sendsTo, hx, hws]
    · simp only [mapGet, h0, if_false] at hget
      have := ih hget
      simp only [recipients, sendsTo] at this
      by_cases hx : some k0 = X <;> simp [mapSet, recipients, sendsTo, h0, hx, this]

theorem collectStates_eq_snapshot (r : Registry) (h : statesOk r = true) :
    collectStates r = snapshot r := by
  induction r with
  | nil => rfl
  | cons e rest ih =>
    obtain ⟨k0, v0⟩ := e
    simp only [statesOk, List.all_cons, Bool.and_eq_true, Bool.or_eq_true] at h
    have ih' := ih (by simpa [statesOk] using h.2)
    simp only [snapshot] at ih'
    cases hs : v0.state <;>
      simp_all [collectStates, snapshot, Json.truthy, Json.isNull, List.filter_cons]

theorem prop_some_ne_null (msg : Json) (k : String) (v : Json) (h : msg.prop k = some v) :
    ∃ kvs, msg = .obj kvs := by
  cases msg <;> simp [Json.prop] at h ⊢

theorem statesOk_mapSet (r : Registry) (k : String) (v : Session) (h : statesOk r = true)
    (hv : (v.state.isNull || v.state.truthy) = true) : statesOk (mapSet r k v) = true := by
  induction r with
  | nil => simpa [mapSet, statesOk] using hv
  | cons e rest ih =>
    obtain ⟨k0, v0⟩ := e
    simp only [statesOk, List.all_cons, Bool.and_eq_true] at h ih
    by_cases h0 : k0 = k
    · simp only [mapSet, h0, if_true, statesOk, List.all_cons, Bool.and_eq_true]
      exact ⟨hv, h.2⟩
    · simp only [mapSet, h0, if_false, statesOk, List.all_cons, Bool.and_eq_true]
      exact ⟨h.1, ih h.2⟩

theorem broadcast_log (fails : Oracle) (self : RoomDurableObject) (payload : Json)
    (X : Option String) :
    (broadcast fails self payload X).log
      = self.log ++ stamp fails self.log.length
          (sendsTo (recipients self.clients X) payload.stringify) := by
  simp [broadcast, broadcastLoop_eq]

theorem calls_append_stamp (fails : Oracle) (log : Log) (n : Nat) (es : List Effect) :
    calls (log ++ stamp fails n es) = calls log ++ es := by
  have := stamp_calls fails n es
  simp only [calls] at this
  simp [calls, this]

/-- What the `message` listener does on a hello whose id is a non-empty string. -/
theorem onMessage_hello (fails : Oracle) (server : Conn) (now : Int) (msg : Json) (id : String)
    (self : RoomDurableObject) (clientId : Option String)
    (htype : msg.prop "type" = some (.str "hello")) (hid : msg.prop "id" = some (.str id))
    (hne : id ≠ "") :
    onMessage fails server now (some msg) self clientId
      = (⟨mapSet self.clients id ⟨server, now, .null⟩,
          self.log ++ [⟨.send server
            (stateMsg (collectStates (mapSet self.clients id ⟨server, now, .null⟩))).stringify,
            fails self.log.length⟩]⟩, some id) := by
  obtain ⟨kvs, rfl⟩ := prop_some_ne_null msg "type" _ htype
  simp [onMessage, htype, hid, strictEqStr, optTruthy, Json.truthy, hne, Json.toStr, wsSend,
    attempt]

/-- What the `message` listener does on an update with a truthy state, sent by a connection
whose `clientId` is a registered non-empty id. -/
theorem onMessage_update (fails : Oracle) (server : Conn) (now : Int) (msg S : Json)
    (A : String) (c : Session) (self : RoomDurableObject)
    (htype : msg.prop "type" = some (.str "update")) (hstate : msg.prop "state" = some S)
    (hS : S.truthy = true) (hA : A ≠ "") (hget : mapGet self.clients A = some c) :
    onMessage fails server now (some msg) self (some A)
      = (broadcast fails
          { self with clients := mapSet self.clients A { c with lastSeen := now, state := S } }
          (stateMsg [S]) (some A), some A) := by
  obtain ⟨kvs, rfl⟩ := prop_some_ne_null msg "type" _ htype
  simp [onMessage, htype, hstate, strictEqStr, optTruthy, hS, idTruthy, hA, hget]

/-! ## Lemmas on the prune pass -/

theorem pruneLoop_eq (fails : Oracle) (now : Int) (l : List (String × Session))
    (self : RoomDurableObject) :
    pruneLoop fails now l self
      = ⟨pruneKeep now l self.clients,
          self.log ++ stamp fails self.log.length (pruneCalls now l self.clients)⟩ := by
  induction l generalizing self with
  | nil => simp [pruneLoop, pruneKeep, pruneCalls, stamp]
  | cons e rest ih =>
    obtain ⟨id, c⟩ := e
    by_cases h : now - c.lastSeen > 20000
    · have hi : idle now (id, c) = true := by simp [idle, h]
      simp only [pruneLoop, h, if_true, ih, pruneKeep, pruneCalls, hi, broadcast_log,
        recipients_none, wsClose, attempt, stamp, stamp_append, stringify_goodbyeMsg]
      simp [broadcast, stamp_length, Nat.add_assoc, Nat.add_comm 1]
    · have hi : idle now (id, c) = false := by simp [idle, h]
      simp [pruneLoop, h, ih, pruneKeep, pruneCalls, hi]

theorem pruneKeep_eq_filter_keys (now : Int) (l : List (String × Session)) (cur : Registry) :
    pruneKeep now l cur
      = cur.filter (fun e => !decide (e.1 ∈ keys (l.filter (idle now)))) := by
  induction l generalizing cur with
  | nil => simp [pruneKeep, keys]
  | cons e rest ih =>
    by_cases h : idle now e = true
    · simp only [pruneKeep, h, if_true, ih, mapDelete, List.filter_filter, List.filter_cons, keys,
        List.map_cons, List.mem_cons]
      apply List.filter_congr
      intro x _
      by_cases hx : x.1 = e.1 <;> simp [hx]
    · simp only [pruneKeep, h, if_false, ih, List.filter_cons]
      simp

theorem pruneKeep_eq_filter (now : Int) (r : Registry) (hnd : (keys r).Nodup) :
    pruneKeep now r r = r.filter (fun e => !idle now e) := by
  rw [pruneKeep_eq_filter_keys]
  apply List.filter_congr
  intro x hx
  congr 1
  by_cases hi : idle now x = true
  · have : x.1 ∈ keys (r.filter (idle now)) :=
      List.mem_map.mpr ⟨x, List.mem_filter.mpr ⟨hx, hi⟩, rfl⟩
    simp [this, hi]
  · have : ¬ x.1 ∈ keys (r.filter (idle now)) := by
      intro hmem
      obtain ⟨y, hy, hyx⟩ := List.mem_map.mp hmem
      obtain ⟨hyr, hyi⟩ := List.mem_filter.mp hy
      have hinj := List.inj_on_of_nodup_map hnd hyr hx hyx
      exact hi (hinj ▸ hyi)
    simp [this, hi]

theorem pruneKeep_subset (now : Int) (l : List (String × Session)) (cur : Registry) :
    ∀ e, e ∈ pruneKeep now l cur → e ∈ cur := by
  intro e he
  rw [pruneKeep_eq_filter_keys] at he
  exact (List.mem_filter.mp he).1

theorem sendsTo_filter_isClose (r : Registry) (p : Json) :
    (sendsTo r p).filter Effect.isClose = [] := by
  induction r with
  | nil => rfl
  | cons e rest ih => simpa [sendsTo, Effect.isClose, List.filter_cons] using ih

theorem pruneCalls_closes (now : Int) (l : List (String × Session)) (cur : Registry) :
    (pruneCalls now l cur).filter Effect.isClose
      = (l.filter (idle now)).map (fun e => Effect.close e.2.ws 1001 "timeout") := by
  induction l generalizing cur with
  | nil => rfl
  | cons e rest ih =>
    by_cases h : idle now e = true
    · simp [pruneCalls, h, List.filter_cons, Effect.isClose, sendsTo_filter_isClose, ih]
    · simp [pruneCalls, h, List.filter_cons, ih]

theorem pruneCalls_goodbye_sent (now : Int) (l : List (String × Session)) (cur : Registry) :
    ∀ e, e ∈ l → idle now e = true → ∀ e', e' ∈ pruneKeep now l cur →
      Effect.send e'.2.ws (goodbyeMsg e.1) ∈ pruneCalls now l cur := by
  induction l generalizing cur with
  | nil => intro e he; simp at he
  | cons x rest ih =>
    intro e he hi e' he'
    by_cases hx : idle now x = true
    · simp only [pruneKeep, hx, if_true] at he'
      simp only [pruneCalls, hx, if_true, List.mem_cons, List.mem_append]
      rcases List.mem_cons.mp he with rfl | hrest
      · right; left
        exact List.mem_map.mpr ⟨e', pruneKeep_subset now rest _ e' he', rfl⟩
      · right; right
        exact ih _ e hrest hi e' he'
    · simp only [pruneKeep, hx, if_false] at he'
      simp only [pruneCalls, hx, if_false]
      rcases List.mem_cons.mp he with rfl | hrest
      · exact absurd hi hx
      · exact ih _ e hrest hi e' he'

theorem pruneCalls_only (now : Int) (l : List (String × Session)) (cur : Registry) :
    ∀ c, c ∈ pruneCalls now l cur →
      ∃ e, e ∈ l ∧ idle now e = true
        ∧ (c = Effect.close e.2.ws 1001 "timeout"
            ∨ ∃ e', e' ∈ cur ∧ e'.1 ≠ e.1 ∧ c = Effect.send e'.2.ws (goodbyeMsg e.1)) := by
  induction l generalizing cur with
  | nil => intro c hc; simp [pruneCalls] at hc
  | cons x rest ih =>
    intro c hc
    by_cases hx : idle now x = true
    · simp only [pruneCalls, hx, if_true, List.mem_cons, List.mem_append] at hc
      rcases hc with rfl | hc | hc
      · exact ⟨x, List.mem_cons_self _ _, hx, Or.inl rfl⟩
      · obtain ⟨e', he', rfl⟩ := List.mem_map.mp hc
        have hm := List.mem_filter.mp he'
        refine ⟨x, List.mem_cons_self _ _, hx, Or.inr ⟨e', hm.1, ?_, rfl⟩⟩
        simpa using hm.2
      · obtain ⟨e, he, hi, hor⟩ := ih _ c hc
        refine ⟨e, List.mem_cons_of_mem _ he, hi, ?_⟩
        rcases hor with h | ⟨e', he', hne, h⟩
        · exact Or.inl h
        · exact Or.inr ⟨e', (List.mem_filter.mp he').1, hne, h⟩
    · simp only [pruneCalls, hx, if_false] at hc
      obtain ⟨e, he, hi, hor⟩ := ih _ c hc
      exact ⟨e, List.mem_cons_of_mem _ he, hi, hor⟩

theorem prune_eq (fails : Oracle) (now : Int) (self : RoomDurableObject)
    (hnd : (keys self.clients).Nodup) :
    prune fails now self
      = ⟨self.clients.filter (fun e => !idle now e),
          self.log ++ stamp fails self.log.length
            (pruneCalls now self.clients self.clients)⟩ := by
  rw [prune, pruneLoop_eq, pruneKeep_eq_filter now _ hnd]

theorem heartbeat_eq (fails : Oracle) (server : Conn) (now : Int) (self : RoomDurableObject)
    (hnd : (keys self.clients).Nodup) :
    heartbeat fails server now self
      = ⟨self.clients.filter (fun e => !idle now e),
          self.log ++ stamp fails self.log.length
            (Effect.send server pingMsg
              :: (pruneCalls now self.clients self.clients
                  ++ sendsTo (self.clients.filter (fun e => !idle now e))
                      (stateMsg (collectStates (self.clients.filter (fun e => !idle now e)))).stringify))⟩ := by
  simp only [heartbeat, snapshotTick, wsSend, attempt]
  have hp := prune_eq fails now
    (RoomDurableObject.mk self.clients
      (self.log ++ [Attempt.mk (Effect.send server pingMsg) (fails self.log.length)])) hnd
  rw [hp]
  simp only [broadcast, broadcastLoop_eq, recipients_none, stamp, stamp_append,
    List.length_append, List.length_cons, List.length_nil, stamp_length]
  simp [Nat.add_assoc, Nat.add_comm 1]

theorem statesOk_filter (r : Registry) (p : String × Session → Bool) (h : statesOk r = true) :
    statesOk (r.filter p) = true := by
  simp only [statesOk, List.all_eq_true] at h ⊢
  intro x hx
  exact h x (List.mem_filter.mp hx).1

theorem mapGet_eq_none_of_not_mem (r : Registry) (k : String) (h : k ∉ keys r) :
    mapGet r k = none := by
  have := (mapHas_iff_mem_keys r k).not.mpr h
  simpa [mapHas] using this

theorem idle_key_not_kept (now : Int) (r : Registry) (hnd : (keys r).Nodup)
    (e : String × Session) (he : e ∈ r) (hi : idle now e = true) :
    e.1 ∉ keys (r.filter (fun x => !idle now x)) := by
  intro hmem
  obtain ⟨y, hy, hyx⟩ := List.mem_map.mp hmem
  obtain ⟨hyr, hyi⟩ := List.mem_filter.mp hy
  have hinj := List.inj_on_of_nodup_map hnd hyr he hyx
  subst hinj
  simp [hi] at hyi

theorem idle_iff (now : Int) (e : String × Session) :
    idle now e = true ↔ now - e.2.lastSeen > 20000 := by
  simp [idle]

/-! ## Lemmas on the listeners and on the event layer -/

theorem onMessage_cases (fails : Oracle) (server : Conn) (now : Int) (parsed : Option Json)
    (self : RoomDurableObject) (clientId : Option String) :
    (∃ id, helloId parsed = some id
      ∧ onMessage fails server now parsed self clientId
        = (⟨mapSet self.clients id ⟨server, now, .null⟩,
            self.log ++ [⟨.send server
              (stateMsg (collectStates (mapSet self.clients id ⟨server, now, .null⟩))).stringify,
              fails self.log.length⟩]⟩, some id))
    ∨ (helloId parsed = none ∧ ∃ A c S, clientId = some A ∧ A ≠ "" ∧ mapGet self.clients A = some c
        ∧ S.truthy = true
        ∧ onMessage fails server now parsed self clientId
          = (broadcast fails ⟨mapSet self.clients A ⟨c.ws, now, S⟩, self.log⟩
              (stateMsg [S]) (some A), clientId))
    ∨ (helloId parsed = none ∧ onMessage fails server now parsed self clientId = (self, clientId)) := by
  rcases parsed with _ | msg
  · right; right; simp [onMessage, helloId]
  · cases msg with
    | obj kvs =>
      by_cases hh : (strictEqStr (Json.prop (.obj kvs) "type") "hello"
          && optTruthy (Json.prop (.obj kvs) "id")) = true
      · cases ht : ((Json.prop (.obj kvs) "id").getD .null).toStr with
        | none =>
          right; right
          simp [onMessage, helloId, hh, ht]
        | some newId =>
          left
          refine ⟨newId, ?_, ?_⟩
          · simp [helloId, hh, ht]
          · simp [onMessage, hh, ht, wsSend, attempt]
      · by_cases hu : (strictEqStr (Json.prop (.obj kvs) "type") "update" && idTruthy clientId
            && optTruthy (Json.prop (.obj kvs) "state")) = true
        · simp only [Bool.and_eq_true] at hu
          obtain ⟨⟨_, hid⟩, hst⟩ := hu
          cases hc : clientId with
          | none => simp [hc, idTruthy] at hid
          | some A =>
            have hA : A ≠ "" := by simpa [hc, idTruthy] using hid
            cases hs : Json.prop (.obj kvs) "state" with
            | none => simp [hs, optTruthy] at hst
            | some S =>
              have hS : S.truthy = true := by simpa [hs, optTruthy] using hst
              cases hg : mapGet self.clients A with
              | none =>
                right; right
                simp_all [onMessage, helloId, idTruthy, optTruthy]
              | some c =>
                right; left
                refine ⟨by simp [helloId, hh], A, c, S, rfl, hA, hg, hS, ?_⟩
                simp_all [onMessage, idTruthy, optTruthy]
        · right; right
          simp [onMessage, helloId, hh, hu]
    | null => right; right; simp [onMessage, helloId]
    | bool b => right; right; simp [onMessage, helloId, Json.prop, strictEqStr]
    | num n => right; right; simp [onMessage, helloId, Json.prop, strictEqStr]
    | str t => right; right; simp [onMessage, helloId, Json.prop, strictEqStr]
    | arr xs => right; right; simp [onMessage, helloId, Json.prop, strictEqStr]

theorem heartbeat_gen (fails : Oracle) (server : Conn) (now : Int) (self : RoomDurableObject) :
    heartbeat fails server now self
      = ⟨pruneKeep now self.clients self.clients,
          self.log ++ stamp fails self.log.length
            (Effect.send server pingMsg
              :: (pruneCalls now self.clients self.clients
                  ++ sendsTo (pruneKeep now self.clients self.clients)
                      (stateMsg (collectStates (pruneKeep now self.clients self.clients))).stringify))⟩ := by
  simp only [heartbeat, snapshotTick, wsSend, attempt, prune, pruneLoop_eq]
  simp only [broadcast, broadcastLoop_eq, recipients_none, stamp, stamp_append,
    List.length_append, List.length_cons, List.length_nil, stamp_length]
  simp [Nat.add_assoc, Nat.add_comm 1]

theorem newCalls_of_log (fails : Oracle) (a b : RoomDurableObject) (es : List Effect)
    (h : b.log = a.log ++ stamp fails a.log.length es) : newCalls a b = es := by
  simp [newCalls, h, stamp_calls]

theorem log_trans (fails : Oracle) (a b c : RoomDurableObject) (es fs : List Effect)
    (hab : b.log = a.log ++ stamp fails a.log.length es)
    (hbc : c.log = b.log ++ stamp fails b.log.length fs) :
    c.log = a.log ++ stamp fails a.log.length (es ++ fs) := by
  rw [hbc, hab, stamp_append]
  simp [stamp_length]

theorem mem_keys_of_mem (r : Registry) (e : String × Session) (h : e ∈ r) : e.1 ∈ keys r :=
  List.mem_map.mpr ⟨e, h, rfl⟩

theorem mapHas_false_iff (r : Registry) (k : String) : mapHas r k = false ↔ k ∉ keys r := by
  rw [← mapHas_iff_mem_keys]
  simp

theorem mapHas_filter_false (r : Registry) (p : String × Session → Bool) (k : String)
    (h : mapHas r k = false) : mapHas (r.filter p) k = false := by
  rw [mapHas_false_iff] at h ⊢
  intro hmem
  obtain ⟨y, hy, hyk⟩ := List.mem_map.mp hmem
  exact h (List.mem_map.mpr ⟨y, (List.mem_filter.mp hy).1, hyk⟩)

theorem mapHas_mapDelete_self (r : Registry) (k : String) : mapHas (mapDelete r k) k = false := by
  simp [mapHas, mapGet_mapDelete_same]

theorem mapHas_mapSet_other (r : Registry) (k k' : String) (v : Session) (h : k' ≠ k) :
    mapHas (mapSet r k v) k' = mapHas r k' := by
  simp [mapHas, mapGet_mapSet_other r k k' v h]

theorem mapHas_of_mapGet (r : Registry) (k : String) (c : Session) (h : mapGet r k = some c) :
    mapHas r k = true := by
  simp [mapHas, h]

theorem goodbye_not_mem_sendsTo (r : Registry) (p : Json) (id : String) (ws : Conn)
    (hp : p ≠ goodbyeMsg id) : Effect.send ws (goodbyeMsg id) ∉ sendsTo r p := by
  intro hmem
  obtain ⟨e, _, he⟩ := List.mem_map.mp hmem
  simp only [Effect.send.injEq] at he
  exact hp he.2

theorem goodbyeMsg_ne (a b : String) (h : a ≠ b) : goodbyeMsg a ≠ goodbyeMsg b := by
  simp [goodbyeMsg, h]

theorem exactList_of_forall (cl : List Json) (h : ∀ x, x ∈ cl → x.exact = true) :
    Json.exactList cl = true := by
  induction cl with
  | nil => rfl
  | cons x rest ih =>
    simp only [Json.exactList, Bool.and_eq_true]
    exact ⟨h x (List.mem_cons_self _ _), ih (fun y hy => h y (List.mem_cons_of_mem _ hy))⟩

theorem stringify_stateMsg_of_exact (cl : List Json) (h : ∀ x, x ∈ cl → x.exact = true) :
    (stateMsg cl).stringify = stateMsg cl := by
  rw [stringify_stateMsg, stringifyList_of_exact cl (exactList_of_forall cl h)]

theorem snapshot_exact (r : Registry) (h : ∀ e, e ∈ r → e.2.state.exact = true) :
    ∀ x, x ∈ snapshot r → x.exact = true := by
  intro x hx
  simp only [snapshot, List.mem_filter, List.mem_map] at hx
  obtain ⟨⟨e, he, rfl⟩, _⟩ := hx
  exact h e he

theorem stateMsg_ne_goodbye (cl : List Json) (id : String) : stateMsg cl ≠ goodbyeMsg id := by
  simp [stateMsg, goodbyeMsg]

theorem stringify_stateMsg_ne_goodbye (cl : List Json) (id : String) :
    (stateMsg cl).stringify ≠ goodbyeMsg id := by
  rw [stringify_stateMsg]
  exact stateMsg_ne_goodbye _ _

theorem pruneCalls_no_goodbye (now : Int) (r : Registry) (id : String)
    (habs : mapHas r id = false) (ws : Conn) :
    Effect.send ws (goodbyeMsg id) ∉ pruneCalls now r r := by
  intro hmem
  obtain ⟨e, he, _, h | ⟨e', _, _, h⟩⟩ := pruneCalls_only now _ _ _ hmem
  · simp at h
  · simp only [Effect.send.injEq] at h
    have hne : id ≠ e.1 := by
      intro heq
      exact (mapHas_false_iff r id).mp habs (heq ▸ mem_keys_of_mem r e he)
    exact goodbyeMsg_ne id e.1 hne h.2

theorem onMessage_absent (fails : Oracle) (server : Conn) (now : Int) (parsed : Option Json)
    (self : RoomDurableObject) (clientId : Option String) (id : String)
    (habs : mapHas self.clients id = false) (hno : helloId parsed ≠ some id) :
    mapHas (onMessage fails server now parsed self clientId).1.clients id = false
    ∧ ∃ es, (onMessage fails server now parsed self clientId).1.log
          = self.log ++ stamp fails self.log.length es
        ∧ ∀ ws, Effect.send ws (goodbyeMsg id) ∉ es := by
  rcases onMessage_cases fails server now parsed self clientId with
    ⟨id', hid', h⟩ | ⟨_, A, c, S, _, _, hg, _, h⟩ | ⟨_, h⟩
  · rw [h]
    have hne : id ≠ id' := fun heq => hno (heq ▸ hid')
    refine ⟨by simpa [mapHas_mapSet_other _ _ _ _ hne] using habs, [_], rfl, ?_⟩
    intro ws hmem
    have heq := List.mem_singleton.mp hmem
    simp only [Effect.send.injEq] at heq
    exact stringify_stateMsg_ne_goodbye _ _ heq.2.symm
  · rw [h]
    have hne : id ≠ A := by
      intro heq
      rw [heq, mapHas_of_mapGet _ _ _ hg] at habs
      exact Bool.noConfusion habs
    refine ⟨by simpa [broadcast, mapHas_mapSet_other _ _ _ _ hne] using habs, _,
      broadcast_log fails _ _ _, ?_⟩
    intro ws
    exact goodbye_not_mem_sendsTo _ _ _ _ (stateMsg_ne_goodbye _ _)
  · rw [h]
    exact ⟨habs, [], by simp [stamp], by simp⟩

theorem heartbeat_absent (fails : Oracle) (server : Conn) (now : Int)
    (self : RoomDurableObject) (id : String) (habs : mapHas self.clients id = false) :
    mapHas (heartbeat fails server now self).clients id = false
    ∧ ∃ es, (heartbeat fails server now self).log = self.log ++ stamp fails self.log.length es
        ∧ ∀ ws, Effect.send ws (goodbyeMsg id) ∉ es := by
  rw [heartbeat_gen]
  refine ⟨?_, _, rfl, ?_⟩
  · simp only
    rw [pruneKeep_eq_filter_keys]
    exact mapHas_filter_false _ _ _ habs
  · intro ws hmem
    rcases List.mem_cons.mp hmem with h | h
    · simp [pingMsg, goodbyeMsg] at h
    · rcases List.mem_append.mp h with h | h
      · exact pruneCalls_no_goodbye now _ id habs ws h
      · exact goodbye_not_mem_sendsTo _ _ _ _ (stateMsg_ne_goodbye _ _) h

theorem onClose_eq_self (fails : Oracle) (self : RoomDurableObject) (clientId : Option String)
    (h : clientId = none ∨ ∃ id, clientId = some id ∧ mapHas self.clients id = false) :
    onClose fails self clientId = self := by
  rcases h with hc | ⟨id, hc, hhas⟩
  · subst hc
    simp [onClose, idTruthy]
  · subst hc
    simp [onClose, hhas]

theorem onClose_cases (fails : Oracle) (self : RoomDurableObject) (clientId : Option String) :
    (∃ id, clientId = some id ∧ id ≠ "" ∧ mapHas self.clients id = true
      ∧ onClose fails self clientId
        = ⟨mapDelete self.clients id,
            self.log ++ stamp fails self.log.length
              (sendsTo (mapDelete self.clients id) (goodbyeMsg id))⟩)
    ∨ onClose fails self clientId = self := by
  by_cases h : (idTruthy clientId && mapHas self.clients (clientId.getD "")) = true
  · left
    simp only [Bool.and_eq_true] at h
    cases hc : clientId with
    | none => simp [hc, idTruthy] at h
    | some id =>
      rw [hc] at h
      refine ⟨id, rfl, by simpa [idTruthy] using h.1, by simpa using h.2, ?_⟩
      have h2 : mapHas self.clients id = true := by simpa using h.2
      have h1 : idTruthy (some id) = true := h.1
      simp [onClose, h1, h2, broadcast, broadcastLoop_eq, recipients_none, stringify_goodbyeMsg]
  · right
    simp [onClose, h]

theorem onClose_absent (fails : Oracle) (self : RoomDurableObject) (clientId : Option String)
    (id : String) (habs : mapHas self.clients id = false) :
    mapHas (onClose fails self clientId).clients id = false
    ∧ ∃ es, (onClose fails self clientId).log = self.log ++ stamp fails self.log.length es
        ∧ ∀ ws, Effect.send ws (goodbyeMsg id) ∉ es := by
  rcases onClose_cases fails self clientId with ⟨id', _, _, hhas, h⟩ | h
  · rw [h]
    have hne : id' ≠ id := by
      intro heq
      rw [heq, habs] at hhas
      exact Bool.noConfusion hhas
    refine ⟨mapHas_filter_false _ _ _ habs, _, rfl, ?_⟩
    intro ws
    exact goodbye_not_mem_sendsTo _ _ _ _ (goodbyeMsg_ne _ _ hne)
  · rw [h]
    exact ⟨habs, [], by simp [stamp], by simp⟩

theorem step_absent (fails : Oracle) (sys : System) (ev : Event) (id : String)
    (habs : mapHas sys.room.clients id = false) (hno : ev.helloId ≠ some id) :
    mapHas (step fails sys ev).room.clients id = false
    ∧ ∃ es, (step fails sys ev).room.log
          = sys.room.log ++ stamp fails sys.room.log.length es
        ∧ ∀ ws, Effect.send ws (goodbyeMsg id) ∉ es := by
  have hnil : ∃ es, sys.room.log = sys.room.log ++ stamp fails sys.room.log.length es
      ∧ ∀ ws, Effect.send ws (goodbyeMsg id) ∉ es := ⟨[], by simp [stamp], by simp⟩
  cases ev with
  | accept => exact ⟨habs, hnil⟩
  | message c parsed now =>
    by_cases hl : live sys c = true
    · simp only [step, hl, if_true]
      exact onMessage_absent fails c now parsed sys.room _ id habs hno
    · simp only [step, hl, if_false]
      exact ⟨habs, hnil⟩
  | tick c now =>
    by_cases hl : live sys c = true
    · simp only [step, hl, if_true]
      exact heartbeat_absent fails c now sys.room id habs
    · simp only [step, hl, if_false]
      exact ⟨habs, hnil⟩
  | close c =>
    by_cases hl : live sys c = true
    · simp only [step, hl, if_true]
      exact onClose_absent fails sys.room _ id habs
    · simp only [step, hl, if_false]
      exact ⟨habs, hnil⟩

theorem run_absent (fails : Oracle) (evs : List Event) (sys : System) (id : String)
    (habs : mapHas sys.room.clients id = false) (hno : ∀ ev, ev ∈ evs → ev.helloId ≠ some id) :
    mapHas (run fails sys evs).room.clients id = false
    ∧ ∃ es, (run fails sys evs).room.log
          = sys.room.log ++ stamp fails sys.room.log.length es
        ∧ ∀ ws, Effect.send ws (goodbyeMsg id) ∉ es := by
  induction evs generalizing sys with
  | nil => exact ⟨habs, [], by simp [run, stamp], by simp⟩
  | cons ev rest ih =>
    obtain ⟨h1, es, hlog, hes⟩ :=
      step_absent fails sys ev id habs (hno ev (List.mem_cons_self _ _))
    obtain ⟨h2, fs, hlog2, hfs⟩ :=
      ih (step fails sys ev) h1 (fun e he => hno e (List.mem_cons_of_mem _ he))
    refine ⟨h2, es ++ fs, log_trans fails _ _ _ es fs hlog hlog2, ?_⟩
    intro ws hmem
    rcases List.mem_append.mp hmem with h | h
    · exact hes ws h
    · exact hfs ws h

/-! ## Lemmas on the membership invariant -/

theorem keys_eq_bindings (r : Registry) : keys r = (bindings r).map Prod.fst := by
  simp [keys, bindings]

theorem bindings_mapSet_same_ws (r : Registry) (k : String) (c v : Session)
    (hget : mapGet r k = some c) (hws : v.ws = c.ws) : bindings (mapSet r k v) = bindings r := by
  induction r with
  | nil => simp [mapGet] at hget
  | cons e rest ih =>
    obtain ⟨k0, v0⟩ := e
    by_cases h0 : k0 = k
    · simp only [mapGet, h0, if_true, Option.some.injEq] at hget
      subst hget
      simp [mapSet, bindings, h0, hws]
    · simp only [mapGet, h0, if_false] at hget
      have := ih hget
      simp only [bindings] at this
      simp [mapSet, bindings, h0, this]

theorem mem_bindings_mapSet (r : Registry) (id : String) (v : Session)
    (hnd : (keys r).Nodup) (k : String) (w : Conn) :
    (k, w) ∈ bindings (mapSet r id v)
      ↔ (k = id ∧ w = v.ws) ∨ ((k, w) ∈ bindings r ∧ k ≠ id) := by
  induction r with
  | nil => simp [mapSet, bindings]
  | cons e rest ih =>
    obtain ⟨k0, v0⟩ := e
    have hnd' : (keys rest).Nodup := by
      simp only [keys, List.map_cons, List.nodup_cons] at hnd
      exact hnd.2
    have hk0 : k0 ∉ keys rest := by
      simp only [keys, List.map_cons, List.nodup_cons] at hnd
      exact hnd.1
    by_cases h0 : k0 = id
    · subst h0
      simp only [mapSet, if_true, bindings, List.map_cons, List.mem_cons, Prod.mk.injEq]
      constructor
      · rintro (h | h)
        · exact Or.inl h
        · right
          refine ⟨Or.inr h, ?_⟩
          rintro rfl
          obtain ⟨y, hy, hyk⟩ := List.mem_map.mp h
          simp only [Prod.mk.injEq] at hyk
          exact hk0 (List.mem_map.mpr ⟨y, hy, hyk.1⟩)
      · rintro (h | ⟨h | h, hne⟩)
        · exact Or.inl h
        · exact absurd h.1 hne
        · exact Or.inr h
    · have ih' := ih hnd'
      simp only [bindings] at ih'
      simp only [mapSet, h0, if_false, bindings, List.map_cons, List.mem_cons, Prod.mk.injEq, ih']
      constructor
      · rintro (h | h | h)
        · right
          refine ⟨Or.inl h, ?_⟩
          rw [h.1]; exact h0
        · exact Or.inl h
        · exact Or.inr ⟨Or.inr h.1, h.2⟩
      · rintro (h | ⟨h | h, hne⟩)
        · exact Or.inr (Or.inl h)
        · exact Or.inl h
        · exact Or.inr (Or.inr ⟨h, hne⟩)

theorem nodup_keys_mapSet (r : Registry) (id : String) (v : Session) (hnd : (keys r).Nodup) :
    (keys (mapSet r id v)).Nodup := by
  rw [keys_mapSet]
  split
  · exact hnd
  · rename_i h
    have hnot : id ∉ keys r := by
      rw [← mapHas_iff_mem_keys]; exact h
    exact List.Nodup.append hnd (List.nodup_singleton id) (by simpa using hnot)

theorem nodup_keys_filter (r : Registry) (p : String × Session → Bool) (hnd : (keys r).Nodup) :
    (keys (r.filter p)).Nodup :=
  List.Nodup.sublist (List.Sublist.map _ (List.filter_sublist _)) hnd

theorem mem_bindings_iff (r : Registry) (k : String) (w : Conn) :
    (k, w) ∈ bindings r ↔ ∃ e, e ∈ r ∧ e.1 = k ∧ e.2.ws = w := by
  simp [bindings]

theorem binding_unique (r : Registry) (hnd : (keys r).Nodup) (e e' : String × Session)
    (he : e ∈ r) (he' : e' ∈ r) (hk : e.1 = e'.1) : e = e' :=
  List.inj_on_of_nodup_map hnd he he' hk

theorem closedSockets_append (es fs : List Effect) :
    closedSockets (es ++ fs) = closedSockets es ++ closedSockets fs := by
  induction es with
  | nil => rfl
  | cons e rest ih => cases e <;> simp [closedSockets, ih]

theorem closedSockets_sendsTo (r : Registry) (p : Json) : closedSockets (sendsTo r p) = [] := by
  induction r with
  | nil => rfl
  | cons e rest ih => simpa [sendsTo, closedSockets] using ih

theorem closedSockets_pruneCalls (now : Int) (l : List (String × Session)) (cur : Registry) :
    closedSockets (pruneCalls now l cur) = (l.filter (idle now)).map (fun e => e.2.ws) := by
  induction l generalizing cur with
  | nil => rfl
  | cons e rest ih =>
    by_cases h : idle now e = true
    · simp [pruneCalls, h, closedSockets, closedSockets_append, closedSockets_sendsTo, ih]
    · simp [pruneCalls, h, ih]

theorem closedSockets_heartbeat (fails : Oracle) (server : Conn) (now : Int)
    (self : RoomDurableObject) :
    closedSockets (newCalls self (heartbeat fails server now self))
      = (self.clients.filter (idle now)).map (fun e => e.2.ws) := by
  rw [newCalls_of_log fails self _ _ (congrArg RoomDurableObject.log (heartbeat_gen fails server now self))]
  simp [closedSockets, closedSockets_append, closedSockets_sendsTo, closedSockets_pruneCalls]

theorem setConn_same (conns : Conn → ConnState) (c : Conn) (v : ConnState) :
    setConn conns c v c = v := by
  simp [setConn]

theorem setConn_other (conns : Conn → ConnState) (c c' : Conn) (v : ConnState) (h : c' ≠ c) :
    setConn conns c v c' = conns c' := by
  simp [setConn, h]

theorem setConn_self (conns : Conn → ConnState) (c : Conn) : setConn conns c (conns c) = conns := by
  funext i
  by_cases h : i = c
  · subst h; simp [setConn]
  · simp [setConn, h]

theorem live_iff (sys : System) (c : Conn) :
    live sys c = true ↔ c < sys.accepted ∧ (sys.conns c).closed = false := by
  simp [live]

theorem inv_init : Inv initSystem := by
  refine ⟨by simp [initSystem, keys], ?_, ?_, ?_, ?_⟩
  · intro id w h; simp [initSystem, bindings] at h
  · intro c id h; simp [initSystem] at h
  · intro c c' id h; simp [initSystem] at h
  · intro c id h; simp [initSystem, freshConn] at h

theorem inv_congr (sys sys' : System)
    (hb : bindings sys'.room.clients = bindings sys.room.clients)
    (hc : sys'.conns = sys.conns) (ha : sys'.accepted = sys.accepted) (h : Inv sys) : Inv sys' := by
  refine ⟨?_, ?_, ?_, ?_, ?_⟩
  · rw [keys_eq_bindings, hb, ← keys_eq_bindings]; exact h.nodup
  · rw [hb, hc, ha]; exact h.entry
  · rw [hb, hc, ha]; exact h.conn
  · rw [hc, ha]; exact h.uniq
  · rw [hc]; exact h.nonempty

theorem inv_accept (fails : Oracle) (sys : System) (h : Inv sys) :
    Inv (step fails sys .accept) := by
  simp only [step]
  refine ⟨h.nodup, ?_, ?_, ?_, ?_⟩
  · intro id w hb
    obtain ⟨h1, h2, h3, h4⟩ := h.entry id w hb
    have hne : w ≠ sys.accepted := Nat.ne_of_lt h1
    simp only [setConn_other _ _ _ _ hne]
    exact ⟨Nat.lt_succ_of_lt h1, h2, h3, h4⟩
  · intro c id hc hid hcl hto
    by_cases hne : c = sys.accepted
    · subst hne
      simp [setConn_same, freshConn] at hid
    · simp only [setConn_other _ _ _ _ hne] at hid hcl hto
      have hc : c < sys.accepted + 1 := hc
      exact h.conn c id (by omega) hid hcl hto
  · intro c c' id hc hc' hcl hcl' hid hid'
    by_cases hne : c = sys.accepted
    · subst hne
      simp [setConn_same, freshConn] at hid
    · by_cases hne' : c' = sys.accepted
      · subst hne'
        simp [setConn_same, freshConn] at hid'
      · simp only [setConn_other _ _ _ _ hne] at hid hcl
        simp only [setConn_other _ _ _ _ hne'] at hid' hcl'
        have hc : c < sys.accepted + 1 := hc
        have hc' : c' < sys.accepted + 1 := hc'
        exact h.uniq c c' id (by omega) (by omega) hcl hcl' hid hid'
  · intro c id hid
    by_cases hne : c = sys.accepted
    · subst hne
      simp [setConn_same, freshConn] at hid
    · simp only [setConn_other _ _ _ _ hne] at hid
      exact h.nonempty c id hid

theorem inv_tick (fails : Oracle) (sys : System) (c : Conn) (now : Int) (h : Inv sys) :
    Inv (step fails sys (.tick c now)) := by
  by_cases hl : live sys c = true
  · simp only [step, hl, if_true, closedSockets_heartbeat]
    have hcl : (heartbeat fails c now sys.room).clients
        = sys.room.clients.filter (fun e => !idle now e) := by
      rw [heartbeat_eq fails c now sys.room h.nodup]
    have hnot : ∀ k w, (k, w) ∈ bindings sys.room.clients →
        (w ∈ (sys.room.clients.filter (idle now)).map (fun e => e.2.ws)
          ↔ ∃ e, e ∈ sys.room.clients ∧ e.1 = k ∧ e.2.ws = w ∧ idle now e = true) := by
      intro k w hb
      obtain ⟨e, he, hek, hew⟩ := (mem_bindings_iff _ _ _).mp hb
      constructor
      · intro hm
        obtain ⟨e2, he2, he2w⟩ := List.mem_map.mp hm
        obtain ⟨he2r, he2i⟩ := List.mem_filter.mp he2
        have hb2 : (e2.1, w) ∈ bindings sys.room.clients :=
          (mem_bindings_iff _ _ _).mpr ⟨e2, he2r, rfl, he2w⟩
        have h1 := (h.entry _ _ hb2).2.1
        have h2 := (h.entry _ _ hb).2.1
        have hk : e2.1 = k := by
          rw [h1] at h2
          exact Option.some.inj h2
        exact ⟨e2, he2r, hk, he2w, he2i⟩
      · rintro ⟨e2, he2r, _, he2w, he2i⟩
        exact List.mem_map.mpr ⟨e2, List.mem_filter.mpr ⟨he2r, he2i⟩, he2w⟩
    refine ⟨?_, ?_, ?_, ?_, ?_⟩
    · simp only [hcl]
      exact nodup_keys_filter _ _ h.nodup
    · intro id w hb
      simp only [hcl] at hb
      obtain ⟨e, he, hek, hew⟩ := (mem_bindings_iff _ _ _).mp hb
      obtain ⟨her, hei⟩ := List.mem_filter.mp he
      have hb0 : (id, w) ∈ bindings sys.room.clients :=
        (mem_bindings_iff _ _ _).mpr ⟨e, her, hek, hew⟩
      have hw : w ∉ (sys.room.clients.filter (idle now)).map (fun e => e.2.ws) := by
        intro hm
        obtain ⟨e2, he2r, he2k, _, he2i⟩ := (hnot id w hb0).mp hm
        have := binding_unique _ h.nodup e2 e he2r her (he2k.trans hek.symm)
        subst this
        simp [he2i] at hei
      simp only [hw, if_false]
      exact h.entry id w hb0
    · intro c' id hc' hid hcl' hto
      by_cases hm : c' ∈ (sys.room.clients.filter (idle now)).map (fun e => e.2.ws)
      · simp [hm] at hto
      · simp only [hm, if_false] at hid hcl' hto
        have hb0 := h.conn c' id hc' hid hcl' hto
        obtain ⟨e, her, hek, hew⟩ := (mem_bindings_iff _ _ _).mp hb0
        have hni : idle now e = false := by
          by_contra hi
          exact hm (List.mem_map.mpr ⟨e, List.mem_filter.mpr ⟨her, by simpa using hi⟩, hew⟩)
        simp only [hcl]
        exact (mem_bindings_iff _ _ _).mpr
          ⟨e, List.mem_filter.mpr ⟨her, by simp [hni]⟩, hek, hew⟩
    · intro c1 c2 id h1 h2 hcl1 hcl2 hid1 hid2
      have e1 : ∀ i, (if i ∈ (sys.room.clients.filter (idle now)).map (fun e => e.2.ws) then
          ({ sys.conns i with timedOut := true } : ConnState) else sys.conns i).clientId
            = (sys.conns i).clientId := by
        intro i; split <;> rfl
      have e2 : ∀ i, (if i ∈ (sys.room.clients.filter (idle now)).map (fun e => e.2.ws) then
          ({ sys.conns i with timedOut := true } : ConnState) else sys.conns i).closed
            = (sys.conns i).closed := by
        intro i; split <;> rfl
      simp only [e1, e2] at hcl1 hcl2 hid1 hid2
      exact h.uniq c1 c2 id h1 h2 hcl1 hcl2 hid1 hid2
    · intro c1 id hid
      have e1 : (if c1 ∈ (sys.room.clients.filter (idle now)).map (fun e => e.2.ws) then
          ({ sys.conns c1 with timedOut := true } : ConnState) else sys.conns c1).clientId
            = (sys.conns c1).clientId := by
        split <;> rfl
      simp only [e1] at hid
      exact h.nonempty c1 id hid
  · simp only [step, hl, if_false]
    exact h

theorem inv_close (fails : Oracle) (sys : System) (c : Conn) (h : Inv sys) :
    Inv (step fails sys (.close c)) := by
  by_cases hl : live sys c = true
  · obtain ⟨hacc, hopen⟩ := (live_iff sys c).mp hl
    simp only [step, hl, if_true]
    have hconnid : ∀ i, (setConn sys.conns c { sys.conns c with closed := true } i).clientId
        = (sys.conns i).clientId := by
      intro i
      by_cases hi : i = c
      · subst hi; simp [setConn_same]
      · simp [setConn_other _ _ _ _ hi]
    have hopen' : ∀ i, (setConn sys.conns c { sys.conns c with closed := true } i).closed = false →
        i ≠ c := by
      intro i hi heq
      subst heq
      simp [setConn_same] at hi
    have huniq : ∀ c1 c2 id, c1 < sys.accepted → c2 < sys.accepted →
        (setConn sys.conns c { sys.conns c with closed := true } c1).closed = false →
        (setConn sys.conns c { sys.conns c with closed := true } c2).closed = false →
        (setConn sys.conns c { sys.conns c with closed := true } c1).clientId = some id →
        (setConn sys.conns c { sys.conns c with closed := true } c2).clientId = some id →
        c1 = c2 := by
      intro c1 c2 id h1 h2 hcl1 hcl2 hid1 hid2
      have n1 := hopen' c1 hcl1
      have n2 := hopen' c2 hcl2
      simp only [setConn_other _ _ _ _ n1] at hcl1 hid1
      simp only [setConn_other _ _ _ _ n2] at hcl2 hid2
      exact h.uniq c1 c2 id h1 h2 hcl1 hcl2 hid1 hid2
    have hnonempty : ∀ c1 id,
        (setConn sys.conns c { sys.conns c with closed := true } c1).clientId = some id →
        id ≠ "" := by
      intro c1 id hid
      rw [hconnid] at hid
      exact h.nonempty c1 id hid
    by_cases hcase : ∃ id, (sys.conns c).clientId = some id ∧ mapHas sys.room.clients id = true
    · obtain ⟨id, hcid, hhas⟩ := hcase
      have hne : id ≠ "" := h.nonempty c id hcid
      have hcl : (onClose fails sys.room (sys.conns c).clientId).clients
          = sys.room.clients.filter (fun e => !decide (e.1 = id)) := by
        rw [hcid]
        simp [onClose, idTruthy, hne, hhas, broadcast, mapDelete]
      refine ⟨?_, ?_, ?_, huniq, hnonempty⟩
      · rw [hcl]; exact nodup_keys_filter _ _ h.nodup
      · intro k w hb
        rw [hcl] at hb
        obtain ⟨e, he, hek, hew⟩ := (mem_bindings_iff _ _ _).mp hb
        obtain ⟨her, hen⟩ := List.mem_filter.mp he
        have hkne : k ≠ id := by
          rw [← hek]; simpa using hen
        have hb0 : (k, w) ∈ bindings sys.room.clients :=
          (mem_bindings_iff _ _ _).mpr ⟨e, her, hek, hew⟩
        obtain ⟨h1, h2, h3, h4⟩ := h.entry k w hb0
        have hwc : w ≠ c := by
          intro heq
          rw [heq, hcid] at h2
          exact hkne (Option.some.inj h2).symm
        simp only [setConn_other _ _ _ _ hwc]
        exact ⟨h1, h2, h3, h4⟩
      · intro c' k hc' hid hcl' hto
        have hn := hopen' c' hcl'
        simp only [setConn_other _ _ _ _ hn] at hid hcl' hto
        have hb0 := h.conn c' k hc' hid hcl' hto
        obtain ⟨e, her, hek, hew⟩ := (mem_bindings_iff _ _ _).mp hb0
        have hkne : k ≠ id := by
          intro heq
          rw [heq] at hid
          exact hn (h.uniq c' c id hc' hacc hcl' hopen hid hcid)
        rw [hcl]
        refine (mem_bindings_iff _ _ _).mpr ⟨e, List.mem_filter.mpr ⟨her, ?_⟩, hek, hew⟩
        rw [hek]; simpa using hkne
    · have hself : onClose fails sys.room (sys.conns c).clientId = sys.room := by
        apply onClose_eq_self
        cases hc : (sys.conns c).clientId with
        | none => exact Or.inl rfl
        | some id =>
          right
          refine ⟨id, rfl, ?_⟩
          by_contra hh
          exact hcase ⟨id, hc, by simpa using hh⟩
      rw [hself]
      refine ⟨h.nodup, ?_, ?_, huniq, hnonempty⟩
      · intro k w hb
        obtain ⟨h1, h2, h3, h4⟩ := h.entry k w hb
        have hwc : w ≠ c := by
          intro heq
          rw [heq] at h2
          apply hcase
          refine ⟨k, h2, ?_⟩
          rw [mapHas_iff_mem_keys, keys_eq_bindings]
          exact List.mem_map.mpr ⟨(k, w), hb, rfl⟩
        simp only [setConn_other _ _ _ _ hwc]
        exact ⟨h1, h2, h3, h4⟩
      · intro c' k hc' hid hcl' hto
        have hn := hopen' c' hcl'
        simp only [setConn_other _ _ _ _ hn] at hid hcl' hto
        exact h.conn c' k hc' hid hcl' hto
  · simp only [step, hl, if_false]
    exact h

theorem eventOk_hello (sys : System) (c : Conn) (parsed : Option Json) (now : Int) (id : String)
    (hid : helloId parsed = some id) (hok : eventOk sys (.message c parsed now) = true) :
    id ≠ ""
    ∧ ((sys.conns c).clientId = none ∨ (sys.conns c).clientId = some id)
    ∧ ∀ c', c' < sys.accepted → c' ≠ c → (sys.conns c').closed = false →
        (sys.conns c').clientId ≠ some id := by
  simp only [eventOk, hid, Bool.and_eq_true, decide_eq_true_eq, List.all_eq_true,
    List.mem_range, Bool.or_eq_true] at hok
  obtain ⟨⟨h1, h2⟩, h3⟩ := hok
  refine ⟨h1, h2, ?_⟩
  intro c' hc' hne hcl
  rcases h3 c' hc' with (h | h) | h
  · exact absurd h hne
  · rw [hcl] at h; exact Bool.noConfusion h
  · exact h

theorem inv_message (fails : Oracle) (sys : System) (c : Conn) (parsed : Option Json) (now : Int)
    (h : Inv sys) (hok : eventOk sys (.message c parsed now) = true) :
    Inv (step fails sys (.message c parsed now)) := by
  by_cases hl : live sys c = true
  · obtain ⟨hacc, hopen⟩ := (live_iff sys c).mp hl
    simp only [step, hl, if_true]
    rcases onMessage_cases fails c now parsed sys.room (sys.conns c).clientId with
      ⟨id, hid, hout⟩ | ⟨hid, A, c0, S, _, _, hg, _, hout⟩ | ⟨hid, hout⟩
    · obtain ⟨hne, hcid, hall⟩ := eventOk_hello sys c parsed now id hid hok
      rw [hout]
      simp only [hid, Option.isSome_some, if_true]
      have hnotc : ∀ k w, (k, w) ∈ bindings sys.room.clients → k ≠ id → w ≠ c := by
        intro k w hb hk heq
        have h2 := (h.entry k w hb).2.1
        rw [heq] at h2
        rcases hcid with hc | hc
        · rw [hc] at h2; exact Option.noConfusion h2
        · rw [hc] at h2; exact hk (Option.some.inj h2).symm
      refine ⟨nodup_keys_mapSet _ _ _ h.nodup, ?_, ?_, ?_, ?_⟩
      · intro k w hb
        rcases (mem_bindings_mapSet _ _ _ h.nodup k w).mp hb with ⟨hk, hw⟩ | ⟨hb0, hk⟩
        · subst hk; subst hw
          simp [setConn_same, hacc, hopen]
        · have hwc := hnotc k w hb0 hk
          simp only [setConn_other _ _ _ _ hwc]
          exact h.entry k w hb0
      · intro c' k hc' hk hcl hto
        by_cases hcc : c' = c
        · subst hcc
          simp only [setConn_same, Option.some.injEq] at hk
          subst hk
          exact (mem_bindings_mapSet _ _ _ h.nodup _ _).mpr (Or.inl ⟨rfl, rfl⟩)
        · simp only [setConn_other _ _ _ _ hcc] at hk hcl hto
          have hb0 := h.conn c' k hc' hk hcl hto
          have hkne : k ≠ id := by
            intro heq
            rw [heq] at hk
            exact hall c' hc' hcc hcl hk
          exact (mem_bindings_mapSet _ _ _ h.nodup _ _).mpr (Or.inr ⟨hb0, hkne⟩)
      · intro c1 c2 k h1 h2 hcl1 hcl2 hid1 hid2
        by_cases e1 : c1 = c
        · by_cases e2 : c2 = c
          · rw [e1, e2]
          · exfalso
            rw [e1] at hid1
            simp only [setConn_same, Option.some.injEq] at hid1
            simp only [setConn_other _ _ _ _ e2] at hid2 hcl2
            rw [← hid1] at hid2
            exact hall c2 h2 e2 hcl2 hid2
        · by_cases e2 : c2 = c
          · exfalso
            rw [e2] at hid2
            simp only [setConn_same, Option.some.injEq] at hid2
            simp only [setConn_other _ _ _ _ e1] at hid1 hcl1
            rw [← hid2] at hid1
            exact hall c1 h1 e1 hcl1 hid1
          · simp only [setConn_other _ _ _ _ e1] at hid1 hcl1
            simp only [setConn_other _ _ _ _ e2] at hid2 hcl2
            exact h.uniq c1 c2 k h1 h2 hcl1 hcl2 hid1 hid2
      · intro c1 k hk
        by_cases e1 : c1 = c
        · rw [e1] at hk
          simp only [setConn_same, Option.some.injEq] at hk
          rw [← hk]; exact hne
        · simp only [setConn_other _ _ _ _ e1] at hk
          exact h.nonempty c1 k hk
    · rw [hout]
      simp only [hid, Option.isSome_none, Bool.false_eq_true, if_false]
      refine inv_congr sys _ ?_ ?_ rfl h
      · simp only [broadcast]
        exact bindings_mapSet_same_ws _ _ c0 _ hg rfl
      · exact setConn_self sys.conns c
    · rw [hout]
      simp only [hid, Option.isSome_none, Bool.false_eq_true, if_false]
      exact inv_congr sys _ rfl (setConn_self sys.conns c) rfl h
  · simp only [step, hl, if_false]
    exact h

theorem inv_step (fails : Oracle) (sys : System) (ev : Event) (h : Inv sys)
    (hok : eventOk sys ev = true) : Inv (step fails sys ev) := by
  cases ev with
  | accept => exact inv_accept fails sys h
  | message c parsed now => exact inv_message fails sys c parsed now h hok
  | tick c now => exact inv_tick fails sys c now h
  | close c => exact inv_close fails sys c h

theorem inv_run (fails : Oracle) (evs : List Event) (sys : System) (h : Inv sys)
    (hd : disciplined fails sys evs = true) : Inv (run fails sys evs) := by
  induction evs generalizing sys with
  | nil => exact h
  | cons ev rest ih =>
    simp only [disciplined, Bool.and_eq_true] at hd
    exact ih (step fails sys ev) (inv_step fails sys ev h hd.1) hd.2

theorem mapGet_of_mem_nodup (r : Registry) (hnd : (keys r).Nodup) (k : String) (v : Session)
    (h : (k, v) ∈ r) : mapGet r k = some v := by
  induction r with
  | nil => simp at h
  | cons e rest ih =>
    obtain ⟨k0, v0⟩ := e
    simp only [keys, List.map_cons, List.nodup_cons] at hnd
    rcases List.mem_cons.mp h with heq | hrest
    · cases heq
      simp [mapGet]
    · have hk : k0 ≠ k := by
        intro heq
        subst heq
        exact hnd.1 (List.mem_map.mpr ⟨(k0, v), hrest, rfl⟩)
      simp only [mapGet, hk, if_false]
      exact ih hnd.2 hrest

/-! ## Every reachable registry is a valid map -/

theorem nodup_step (fails : Oracle) (sys : System) (ev : Event)
    (h : (keys sys.room.clients).Nodup) : (keys (step fails sys ev).room.clients).Nodup := by
  cases ev with
  | accept => exact h
  | message c parsed now =>
    by_cases hl : live sys c = true
    · simp only [step, hl, if_true]
      rcases onMessage_cases fails c now parsed sys.room (sys.conns c).clientId with
        ⟨id, _, hout⟩ | ⟨_, A, c0, S, _, _, _, _, hout⟩ | ⟨_, hout⟩
      · rw [hout]; exact nodup_keys_mapSet _ _ _ h
      · rw [hout]; exact nodup_keys_mapSet _ _ _ h
      · rw [hout]; exact h
    · simp only [step, hl, if_false]; exact h
  | tick c now =>
    by_cases hl : live sys c = true
    · simp only [step, hl, if_true]
      rw [heartbeat_eq fails c now sys.room h]
      exact nodup_keys_filter _ _ h
    · simp only [step, hl, if_false]; exact h
  | close c =>
    by_cases hl : live sys c = true
    · simp only [step, hl, if_true]
      rcases onClose_cases fails sys.room (sys.conns c).clientId with ⟨id, _, _, _, hout⟩ | hout
      · rw [hout]; exact nodup_keys_filter _ _ h
      · rw [hout]; exact h
    · simp only [step, hl, if_false]; exact h

theorem statesOk_step (fails : Oracle) (sys : System) (ev : Event)
    (h : statesOk sys.room.clients = true) : statesOk (step fails sys ev).room.clients = true := by
  cases ev with
  | accept => exact h
  | message c parsed now =>
    by_cases hl : live sys c = true
    · simp only [step, hl, if_true]
      rcases onMessage_cases fails c now parsed sys.room (sys.conns c).clientId with
        ⟨id, _, hout⟩ | ⟨_, A, c0, S, _, _, _, hS, hout⟩ | ⟨_, hout⟩
      · rw [hout]; exact statesOk_mapSet _ _ _ h rfl
      · rw [hout]; exact statesOk_mapSet _ _ _ h (by simp [hS])
      · rw [hout]; exact h
    · simp only [step, hl, if_false]; exact h
  | tick c now =>
    by_cases hl : live sys c = true
    · simp only [step, hl, if_true]
      rw [heartbeat_gen, pruneKeep_eq_filter_keys]
      exact statesOk_filter _ _ h
    · simp only [step, hl, if_false]; exact h
  | close c =>
    by_cases hl : live sys c = true
    · simp only [step, hl, if_true]
      rcases onClose_cases fails sys.room (sys.conns c).clientId with ⟨id, _, _, _, hout⟩ | hout
      · rw [hout]; exact statesOk_filter _ _ h
      · rw [hout]; exact h
    · simp only [step, hl, if_false]; exact h

/-- Whatever the events, the registry reached from the empty room has distinct keys and
stores only states that are `null` or truthy. -/
theorem valid_run (fails : Oracle) (evs : List Event) (sys : System)
    (hnd : (keys sys.room.clients).Nodup) (hok : statesOk sys.room.clients = true) :
    (keys (run fails sys evs).room.clients).Nodup
    ∧ statesOk (run fails sys evs).room.clients = true := by
  induction evs generalizing sys with
  | nil => exact ⟨hnd, hok⟩
  | cons ev rest ih =>
    exact ih (step fails sys ev) (nodup_step fails sys ev hnd) (statesOk_step fails sys ev hok)

/-- Every registry reachable from the empty room is a valid map: distinct keys, stored states
`null` or truthy. -/
theorem valid_reachable (fails : Oracle) (evs : List Event) :
    (keys (run fails initSystem evs).room.clients).Nodup
    ∧ statesOk (run fails initSystem evs).room.clients = true :=
  valid_run fails evs initSystem (by simp [initSystem, keys]) rfl

/-! ## Lemmas on ignored frames -/

/-- `String(1e21)` is the exponent form carried by the number. -/
theorem toStr_tenTo21 : Json.toStr (.num Num.tenTo21) = some "1e+21" := rfl

/-- `String` of an object with an own property `toString` throws; of a plain object it is
`[object Object]`; of an array it is the comma-joined elements. -/
theorem toStr_objects_and_arrays :
    Json.toStr (.obj [("toString", .num 1)]) = none
    ∧ Json.toStr (.obj [("x", .num 1)]) = some "[object Object]"
    ∧ Json.toStr (.arr [.str "a", .null, .arr [.num 1, .num 2]]) = some "a,,1,2"
    ∧ Json.toStr (.arr [.obj [("toString", .num 1)]]) = none :=
  ⟨rfl, rfl, rfl, rfl⟩

/-- `JSON.stringify` writes `Infinity` as `null` and `-0` as `0`, at any depth. -/
theorem stringify_rewrites :
    Json.stringify (.arr [.num Num.infinity, .obj [("x", .num Num.minusZero)]])
      = .arr [.null, .obj [("x", .num 0)]] := rfl

/-- A hello whose id cannot be converted to a string (`String(msg.id)` throws inside the
`try`) is ignored. -/
theorem onMessage_hello_id_throws (fails : Oracle) (server : Conn) (now : Int)
    (self : RoomDurableObject) (clientId : Option String) :
    onMessage fails server now (some helloThrows) self clientId = (self, clientId) := rfl

theorem strictEqStr_eq_true_iff (v : Option Json) (t : String) :
    strictEqStr v t = true ↔ v = some (.str t) := by
  cases v with
  | none => simp [strictEqStr]
  | some j => cases j <;> simp [strictEqStr]

theorem onMessage_ignored (fails : Oracle) (server : Conn) (now : Int) (msg : Json)
    (self : RoomDurableObject) (clientId : Option String)
    (h1 : (strictEqStr (msg.prop "type") "hello" && optTruthy (msg.prop "id")) = false)
    (h2 : (strictEqStr (msg.prop "type") "update" && idTruthy clientId
      && optTruthy (msg.prop "state")) = false) :
    onMessage fails server now (some msg) self clientId = (self, clientId) := by
  cases msg with
  | null => rfl
  | bool b => simp only [onMessage, h1, h2, Bool.false_eq_true, if_false]
  | num n => simp only [onMessage, h1, h2, Bool.false_eq_true, if_false]
  | str t => simp only [onMessage, h1, h2, Bool.false_eq_true, if_false]
  | arr xs => simp only [onMessage, h1, h2, Bool.false_eq_true, if_false]
  | obj kvs => simp only [onMessage, h1, h2, Bool.false_eq_true, if_false]

theorem helloId_eq_none_of_type (msg : Json) (h : msg.prop "type" ≠ some (.str "hello")) :
    helloId (some msg) = none := by
  have h' : strictEqStr (msg.prop "type") "hello" = false := by
    have := (strictEqStr_eq_true_iff (msg.prop "type") "hello").not.mpr h
    simpa using this
  cases msg <;> simp_all [helloId]

theorem keys_mapSet_of_get (r : Registry) (k : String) (c v : Session)
    (h : mapGet r k = some c) : keys (mapSet r k v) = keys r := by
  rw [keys_mapSet, if_pos (mapHas_of_mapGet r k c h)]

/-! ## Lemmas on the order of a tick -/

theorem stamp_congr (f g : Oracle) (n : Nat) (es : List Effect)
    (h : ∀ i, n ≤ i → f i = g i) : stamp f n es = stamp g n es := by
  induction es generalizing n with
  | nil => rfl
  | cons e es ih =>
    simp only [stamp, h n (Nat.le_refl n), ih (n + 1) (fun i hi => h i (by omega))]

theorem drop_after_one (l : Log) (x : Attempt) (rest : Log) :
    (l ++ x :: rest).drop (l.length + 1) = rest := by
  have : l ++ x :: rest = (l ++ [x]) ++ rest := by simp
  rw [this]
  have hl : (l ++ [x]).length = l.length + 1 := by simp
  rw [← hl, List.drop_left]

/-! ## Lemmas on identity and on the entries a listener touches -/

theorem onMessage_snd (fails : Oracle) (server : Conn) (now : Int) (parsed : Option Json)
    (self : RoomDurableObject) (clientId : Option String) :
    (onMessage fails server now parsed self clientId).2 = idAfter parsed clientId := by
  rcases onMessage_cases fails server now parsed self clientId with
    ⟨id, hid, hout⟩ | ⟨hid, _, _, _, _, _, _, _, hout⟩ | ⟨hid, hout⟩
  · rw [hout]; simp [idAfter, hid]
  · rw [hout]; simp [idAfter, hid]
  · rw [hout]; simp [idAfter, hid]

theorem step_identity (fails : Oracle) (sys : System) (ev : Event) (c : Conn)
    (hc : c < sys.accepted) (hopen : (sys.conns c).closed = false) (hne : ev ≠ .close c) :
    c < (step fails sys ev).accepted
    ∧ ((step fails sys ev).conns c).closed = false
    ∧ ((step fails sys ev).conns c).clientId = lastHello c [ev] (sys.conns c).clientId := by
  cases ev with
  | accept =>
    have hcn : c ≠ sys.accepted := Nat.ne_of_lt hc
    simp only [step, setConn_other _ _ _ _ hcn, lastHello]
    exact ⟨Nat.lt_succ_of_lt hc, hopen, trivial⟩
  | message c' parsed now =>
    by_cases hcc : c' = c
    · subst hcc
      have hl : live sys c' = true := (live_iff sys c').mpr ⟨hc, hopen⟩
      simp only [step, hl, if_true, setConn_same, lastHello, onMessage_snd]
      exact ⟨hc, hopen, trivial⟩
    · have hcc' : c ≠ c' := fun h => hcc h.symm
      by_cases hl : live sys c' = true
      · simp only [step, hl, if_true, setConn_other _ _ _ _ hcc', lastHello, hcc, if_false]
        exact ⟨hc, hopen, trivial⟩
      · simp only [step, hl, if_false, lastHello, hcc]
        exact ⟨hc, hopen, rfl⟩
  | tick c' now =>
    by_cases hl : live sys c' = true
    · simp only [step, hl, if_true, lastHello]
      refine ⟨hc, ?_, ?_⟩
      · split
        · exact hopen
        · exact hopen
      · split <;> rfl
    · simp only [step, hl, if_false, lastHello]
      exact ⟨hc, hopen, rfl⟩
  | close c' =>
    have hcc' : c ≠ c' := by
      intro h
      exact hne (by rw [h])
    by_cases hl : live sys c' = true
    · simp only [step, hl, if_true, setConn_other _ _ _ _ hcc', lastHello]
      exact ⟨hc, hopen, trivial⟩
    · simp only [step, hl, if_false, lastHello]
      exact ⟨hc, hopen, rfl⟩

theorem lastHello_cons (c : Conn) (ev : Event) (rest : List Event) (cur : Option String) :
    lastHello c (ev :: rest) cur = lastHello c rest (lastHello c [ev] cur) := by
  cases ev <;> simp [lastHello]

theorem run_identity (fails : Oracle) (evs : List Event) (sys : System) (c : Conn)
    (hc : c < sys.accepted) (hopen : (sys.conns c).closed = false)
    (hne : ∀ ev, ev ∈ evs → ev ≠ .close c) :
    c < (run fails sys evs).accepted
    ∧ ((run fails sys evs).conns c).closed = false
    ∧ ((run fails sys evs).conns c).clientId = lastHello c evs (sys.conns c).clientId := by
  induction evs generalizing sys with
  | nil => exact ⟨hc, hopen, rfl⟩
  | cons ev rest ih =>
    obtain ⟨h1, h2, h3⟩ := step_identity fails sys ev c hc hopen (hne ev (List.mem_cons_self _ _))
    obtain ⟨g1, g2, g3⟩ := ih (step fails sys ev) h1 h2 (fun e he => hne e (List.mem_cons_of_mem _ he))
    refine ⟨g1, g2, ?_⟩
    rw [lastHello_cons, ← h3]
    exact g3

theorem mapGet_filter_of_pos (r : Registry) (p : String × Session → Bool) (k : String)
    (s : Session) (h : mapGet r k = some s) (hp : p (k, s) = true) :
    mapGet (r.filter p) k = some s := by
  induction r with
  | nil => simp [mapGet] at h
  | cons e rest ih =>
    obtain ⟨k0, v0⟩ := e
    by_cases h0 : k0 = k
    · subst h0
      simp only [mapGet, if_true, Option.some.injEq] at h
      subst h
      simp [List.filter_cons, hp, mapGet]
    · simp only [mapGet, h0, if_false] at h
      by_cases hq : p (k0, v0) = true
      · simp [List.filter_cons, hq, mapGet, h0, ih h]
      · simp [List.filter_cons, hq, ih h]

theorem update_changes_only_own_key (fails : Oracle) (server : Conn) (now : Int) (msg : Json)
    (self : RoomDurableObject) (clientId : Option String)
    (htype : msg.prop "type" = some (.str "update")) (k : String)
    (hch : mapGet (onMessage fails server now (some msg) self clientId).1.clients k
      ≠ mapGet self.clients k) :
    clientId = some k ∧ mapHas self.clients k = true := by
  rcases onMessage_cases fails server now (some msg) self clientId with
    ⟨id', hid, _⟩ | ⟨_, A, c, S, hc, _, hg, _, hout⟩ | ⟨_, hout⟩
  · rw [helloId_eq_none_of_type msg (by rw [htype]; simp)] at hid
    exact Option.noConfusion hid
  · rw [hout] at hch
    by_cases hk : k = A
    · subst hk
      exact ⟨hc, mapHas_of_mapGet _ _ _ hg⟩
    · exact absurd (mapGet_mapSet_other _ _ _ _ hk) hch
  · rw [hout] at hch
    exact absurd rfl hch

theorem close_changes_only_own_key (fails : Oracle) (self : RoomDurableObject)
    (clientId : Option String) (k : String)
    (hch : mapGet (onClose fails self clientId).clients k ≠ mapGet self.clients k) :
    clientId = some k ∧ mapHas self.clients k = true := by
  rcases onClose_cases fails self clientId with ⟨id, hid, _, hhas, hout⟩ | hout
  · rw [hout] at hch
    by_cases hk : k = id
    · subst hk
      exact ⟨hid, hhas⟩
    · exact absurd (mapGet_mapDelete_other _ _ _ hk) hch
  · rw [hout] at hch
    exact absurd rfl hch

theorem inv_holder (sys : System) (h : Inv sys) (c : Conn) (k : String)
    (hl : live sys c = true) (hid : (sys.conns c).clientId = some k)
    (hhas : mapHas sys.room.clients k = true) :
    ∃ s, mapGet sys.room.clients k = some s ∧ s.ws = c := by
  obtain ⟨hacc, hopen⟩ := (live_iff sys c).mp hl
  obtain ⟨s, hs⟩ := Option.isSome_iff_exists.mp hhas
  refine ⟨s, hs, ?_⟩
  have hmem : (k, s) ∈ sys.room.clients := by
    have hk := (mapHas_iff_mem_keys _ _).mp hhas
    obtain ⟨e, he, hek⟩ := List.mem_map.mp hk
    obtain ⟨k', s'⟩ := e
    simp only at hek
    subst hek
    have := mapGet_of_mem_nodup _ h.nodup k' s' he
    rw [hs] at this
    cases this
    exact he
  obtain ⟨h1, h2, h3, _⟩ := h.entry k s.ws ((mem_bindings_iff _ _ _).mpr ⟨(k, s), hmem, rfl, rfl⟩)
  exact h.uniq s.ws c k h1 hacc h3 hopen h2 hid

/-! ## Lemmas on a session left alone -/

theorem mem_of_mapGet (r : Registry) (k : String) (s : Session) (h : mapGet r k = some s) :
    (k, s) ∈ r := by
  induction r with
  | nil => simp [mapGet] at h
  | cons e rest ih =>
    obtain ⟨k0, v0⟩ := e
    by_cases h0 : k0 = k
    · subst h0
      simp only [mapGet, if_true, Option.some.injEq] at h
      subst h
      exact List.mem_cons_self _ _
    · simp only [mapGet, h0, if_false] at h
      exact List.mem_cons_of_mem _ (ih h)

theorem collectStates_append (l1 l2 : List (String × Session)) :
    collectStates (l1 ++ l2) = collectStates l1 ++ collectStates l2 := by
  induction l1 with
  | nil => rfl
  | cons e rest ih =>
    obtain ⟨k0, v0⟩ := e
    by_cases h : v0.state.truthy = true <;> simp [collectStates, h, ih]

theorem mem_collectStates (l : List (String × Session)) (x : Json) (h : x ∈ collectStates l) :
    ∃ e, e ∈ l ∧ e.2.state = x := by
  induction l with
  | nil => simp [collectStates] at h
  | cons e rest ih =>
    obtain ⟨k0, v0⟩ := e
    by_cases ht : v0.state.truthy = true
    · simp only [collectStates, ht, if_true, List.mem_cons] at h
      rcases h with h | h
      · exact ⟨(k0, v0), List.mem_cons_self _ _, h.symm⟩
      · obtain ⟨e, he, hx⟩ := ih h
        exact ⟨e, List.mem_cons_of_mem _ he, hx⟩
    · simp only [collectStates, ht] at h
      obtain ⟨e, he, hx⟩ := ih h
      exact ⟨e, List.mem_cons_of_mem _ he, hx⟩

theorem holdsOnce_of_get (r : Registry) (A : String) (s : Session) (hnd : (keys r).Nodup)
    (hg : mapGet r A = some s) (ht : s.state.truthy = true) :
    HoldsOnceFor A s.state r (collectStates r) := by
  obtain ⟨pre, post, hr⟩ := List.append_of_mem (mem_of_mapGet r A s hg)
  have hk : keys r = keys pre ++ A :: keys post := by
    rw [hr]; simp [keys]
  rw [hk] at hnd
  have hnd' := List.nodup_append.mp hnd
  have hpost : A ∉ keys post := (List.nodup_cons.mp hnd'.2.1).1
  have hpre : A ∉ keys pre := by
    intro hmem
    exact List.disjoint_left.mp hnd'.2.2 hmem (List.mem_cons_self _ _)
  refine ⟨pre, post, s, hr, hpre, hpost, rfl, ?_, ?_⟩
  · rw [hr, collectStates_append]
    simp [collectStates, ht]
  · intro hother
    constructor
    · intro hmem
      obtain ⟨e, he, hx⟩ := mem_collectStates pre _ hmem
      have her : e ∈ r := by rw [hr]; exact List.mem_append_left _ he
      have hne : e.1 ≠ A := by
        intro heq
        exact hpre (heq ▸ mem_keys_of_mem pre e he)
      exact hother e her hne hx
    · intro hmem
      obtain ⟨e, he, hx⟩ := mem_collectStates post _ hmem
      have her : e ∈ r := by
        rw [hr]; exact List.mem_append_right _ (List.mem_cons_of_mem _ he)
      have hne : e.1 ≠ A := by
        intro heq
        exact hpost (heq ▸ mem_keys_of_mem post e he)
      exact hother e her hne hx

theorem onMessage_not_update (fails : Oracle) (server : Conn) (now : Int) (parsed : Option Json)
    (self : RoomDurableObject) (clientId : Option String)
    (hh : helloId parsed = none) (hu : isUpdate parsed = false) :
    onMessage fails server now parsed self clientId = (self, clientId) := by
  rcases parsed with _ | msg
  · rfl
  · have h2 : (strictEqStr (msg.prop "type") "update" && idTruthy clientId
        && optTruthy (msg.prop "state")) = false := by
      cases msg <;> simp_all [isUpdate, Json.prop, strictEqStr]
    by_cases h1 : (strictEqStr (msg.prop "type") "hello" && optTruthy (msg.prop "id")) = true
    · cases msg with
      | null => rfl
      | bool b => simp [Json.prop, strictEqStr] at h1
      | num n => simp [Json.prop, strictEqStr] at h1
      | str t => simp [Json.prop, strictEqStr] at h1
      | arr xs => simp [Json.prop, strictEqStr] at h1
      | obj kvs =>
        have ht : ((Json.prop (.obj kvs) "id").getD .null).toStr = none := by
          simpa [helloId, h1] using hh
        simp [onMessage, h1, ht]
    · exact onMessage_ignored fails server now msg self clientId (by simpa using h1) h2

theorem step_leftAlone (fails : Oracle) (sys : System) (ev : Event) (A : String) (s : Session)
    (hnd : (keys sys.room.clients).Nodup) (hg : mapGet sys.room.clients A = some s)
    (hq : leavesAlone A sys ev = true) :
    mapGet (step fails sys ev).room.clients A = some s := by
  cases ev with
  | accept => exact hg
  | message c parsed now =>
    by_cases hl : live sys c = true
    · simp only [step, hl, if_true]
      simp only [leavesAlone, Bool.and_eq_true, decide_eq_true_eq, Bool.not_eq_true',
        Bool.and_eq_false_iff, decide_eq_false_iff_not] at hq
      obtain ⟨hnoA, hnoU⟩ := hq
      rcases onMessage_cases fails c now parsed sys.room (sys.conns c).clientId with
        ⟨id, hid, hout⟩ | ⟨hid, A', c0, S, hc, _, _, _, hout⟩ | ⟨_, hout⟩
      · rw [hout]
        have hne : A ≠ id := fun heq => hnoA (heq ▸ hid)
        simpa [mapGet_mapSet_other _ _ _ _ hne] using hg
      · rcases hnoU with hnoU | hnoU
        · rw [hout]
          have hne : A ≠ A' := fun heq => hnoU (heq ▸ hc)
          simpa [broadcast, mapGet_mapSet_other _ _ _ _ hne] using hg
        · rw [onMessage_not_update fails c now parsed sys.room _ hid hnoU]
          exact hg
      · rw [hout]; exact hg
    · simp only [step, hl, if_false]; exact hg
  | tick c now =>
    by_cases hl : live sys c = true
    · simp only [step, hl, if_true]
      rw [heartbeat_eq fails c now sys.room hnd]
      apply mapGet_filter_of_pos _ _ _ _ hg
      simp only [leavesAlone, hg, decide_eq_true_eq] at hq
      have : ¬ (now - s.lastSeen > 20000) := by omega
      simp [idle, this]
    · simp only [step, hl, if_false]; exact hg
  | close c =>
    by_cases hl : live sys c = true
    · simp only [step, hl, if_true]
      simp only [leavesAlone, decide_eq_true_eq] at hq
      rcases onClose_cases fails sys.room (sys.conns c).clientId with ⟨id, hid, _, _, hout⟩ | hout
      · rw [hout]
        have hne : A ≠ id := fun heq => hq (heq ▸ hid)
        simpa [mapGet_mapDelete_other _ _ _ hne] using hg
      · rw [hout]; exact hg
    · simp only [step, hl, if_false]; exact hg

theorem run_leftAlone (fails : Oracle) (evs : List Event) (sys : System) (A : String)
    (s : Session) (hnd : (keys sys.room.clients).Nodup)
    (hg : mapGet sys.room.clients A = some s) (hq : leftAlone fails A sys evs = true) :
    mapGet (run fails sys evs).room.clients A = some s
    ∧ (keys (run fails sys evs).room.clients).Nodup := by
  induction evs generalizing sys with
  | nil => exact ⟨hg, hnd⟩
  | cons ev rest ih =>
    simp only [leftAlone, Bool.and_eq_true] at hq
    exact ih (step fails sys ev) (nodup_step fails sys ev hnd)
      (step_leftAlone fails sys ev A s hnd hg hq.1) hq.2

/-! ## Claims -/

/-- C1: for every registry, payload, exceptId `X` and failure pattern, `broadcast(payload, X)`
leaves the registry unchanged and extends the trace by exactly one `send` of the serialized
payload, `JSON.stringify(payload)`, per registered session whose id is not `X`, in registry order, on that session's socket (so none
for the session with id `X`); the outcome of each attempt is the one chosen by the oracle,
whatever it is, and every later recipient is still attempted. -/
theorem C1_broadcast_best_effort (fails : Oracle) (self : RoomDurableObject) (payload : Json)
    (X : Option String) :
    (broadcast fails self payload X).clients = self.clients
    ∧ (broadcast fails self payload X).log
        = self.log ++ stamp fails self.log.length
            (sendsTo (recipients self.clients X) payload.stringify)
    ∧ calls (broadcast fails self payload X).log
        = calls self.log ++ sendsTo (recipients self.clients X) payload.stringify
    ∧ (∀ e, e ∈ recipients self.clients X ↔ (e ∈ self.clients ∧ some e.1 ≠ X)) := by
  refine ⟨rfl, ?_, ?_, ?_⟩
  · simp [broadcast, broadcastLoop_eq]
  · simp only [broadcast, broadcastLoop_eq, calls, List.map_append]
    have := stamp_calls fails self.log.length
      (sendsTo (recipients self.clients X) payload.stringify)
    simp only [calls] at this
    rw [this]
  · intro e
    simp [recipients]

/-- C2, refuted as stated, on two updates sent by `A` while `A` and `B` are registered.
(1) `update{state:0}` is a well-formed update carrying a JSON value, the claim asks for one
`state{clients:[0]}` to `B`, and the listener sends nothing at all. (2) `update{state:1e999}`
parses to the truthy number `Infinity`, which `JSON.stringify` writes as `null`: `B` is sent
`state{clients:[null]}`. -/
theorem C2_counterexample_falsy_state :
    updateZero.prop "type" = some (.str "update")
    ∧ updateZero.prop "state" = some (.num 0)
    ∧ mapHas roomAB.clients "A" = true
    ∧ sendsTo (recipients roomAB.clients (some "A")) (stateMsg [.num 0])
        = [Effect.send 1 (stateMsg [.num 0])]
    ∧ (onMessage noFail 0 5 (some updateZero) roomAB (some "A")).1.log = []
    ∧ calls (onMessage noFail 0 5 (some updateZero) roomAB (some "A")).1.log
        ≠ calls roomAB.log ++ sendsTo (recipients roomAB.clients (some "A")) (stateMsg [.num 0])
    ∧ updateInfinity.prop "state" = some (.num Num.infinity)
    ∧ calls (onMessage noFail 0 5 (some updateInfinity) roomAB (some "A")).1.log
        = [Effect.send 1 (stateMsg [.null])] := by
  refine ⟨rfl, rfl, rfl, rfl, rfl, ?_, rfl, rfl⟩
  rw [show (onMessage noFail 0 5 (some updateZero) roomAB (some "A")).1.log = [] from rfl]
  simp [calls, roomAB, sendsTo, recipients]

/-- C2, amended: for every update whose state, as parsed, is a truthy value `S` and every
connection identified as a registered id `A`, handling the update extends the trace by exactly
one send per registered session other than `A`, in registry order, and by nothing for `A`,
whatever sends fail; the text sent is `JSON.stringify({type:'state', clients:[S]})`, which
reads `state{clients:[S']}` where `S'` is `S` with every number that is not finite written as
`null` and every `-0` as `0`, so it reads `state{clients:[S]}` when `S` holds no such
number. -/
theorem C2_update_relayed_when_truthy (fails : Oracle) (server : Conn) (now : Int)
    (msg S : Json) (A : String) (self : RoomDurableObject)
    (htype : msg.prop "type" = some (.str "update")) (hstate : msg.prop "state" = some S)
    (hS : S.truthy = true) (hA : A ≠ "") (hreg : mapHas self.clients A = true) :
    (onMessage fails server now (some msg) self (some A)).1.log
        = self.log ++ stamp fails self.log.length
            (sendsTo (recipients self.clients (some A)) (stateMsg [S]).stringify)
    ∧ calls (onMessage fails server now (some msg) self (some A)).1.log
        = calls self.log ++ sendsTo (recipients self.clients (some A)) (stateMsg [S]).stringify
    ∧ (∀ e, e ∈ recipients self.clients (some A) ↔ (e ∈ self.clients ∧ e.1 ≠ A))
    ∧ (stateMsg [S]).stringify = stateMsg [S.stringify]
    ∧ (S.exact = true → (stateMsg [S]).stringify = stateMsg [S]) := by
  obtain ⟨c, hget⟩ := Option.isSome_iff_exists.mp hreg
  have hlog : (onMessage fails server now (some msg) self (some A)).1.log
      = self.log ++ stamp fails self.log.length
          (sendsTo (recipients self.clients (some A)) (stateMsg [S]).stringify) := by
    rw [onMessage_update fails server now msg S A c self htype hstate hS hA hget, broadcast_log]
    simp only
    rw [sendsTo_recipients_mapSet self.clients A c ⟨c.ws, now, S⟩ (some A) _ hget rfl]
  refine ⟨hlog, ?_, ?_, rfl, ?_⟩
  · rw [hlog, calls_append_stamp]
  · intro e
    simp only [recipients, List.mem_filter, Bool.not_eq_true', decide_eq_false_iff_not,
      Option.some.injEq]
  · intro hfin
    have : (stateMsg [S]).stringify = stateMsg [S.stringify] := rfl
    rw [this, stringify_of_exact S hfin]

/-- Witness of C2 amended: `A` publishes `{x:2}` in `roomAB`; only `B` (socket 1) is sent to,
and the text reads `state{clients:[{x:2}]}`. -/
theorem C2_update_relayed_when_truthy_witness :
    calls (onMessage allFail 0 5 (some updateX2) roomAB (some "A")).1.log
      = [Effect.send 1 (stateMsg [.obj [("x", .num 2)]])] :=
  (C2_update_relayed_when_truthy allFail 0 5 updateX2 (.obj [("x", .num 2)]) "A" roomAB
    rfl rfl rfl (by decide) rfl).2.1

/-- C3: for every registry whose stored states are `null` or truthy and every non-empty id,
handling `hello{id}` on a connection extends the trace by exactly one call, a send on that
connection, of the state message whose `clients` array is the snapshot (all non-null states, in
registry order) of the registry as it stands right after the registration. The message goes
through `JSON.stringify`; the text reads as that very message when the stored states hold no
number that `JSON.stringify` rewrites (not finite, or `-0`). -/
theorem C3_hello_replies_with_snapshot (fails : Oracle) (server : Conn) (now : Int) (msg : Json)
    (id : String) (self : RoomDurableObject) (clientId : Option String)
    (htype : msg.prop "type" = some (.str "hello")) (hid : msg.prop "id" = some (.str id))
    (hne : id ≠ "") (hok : statesOk self.clients = true) :
    (onMessage fails server now (some msg) self clientId).1.log
      = self.log ++ [⟨.send server
          (stateMsg (snapshot
            (onMessage fails server now (some msg) self clientId).1.clients)).stringify,
          fails self.log.length⟩]
    ∧ ((∀ e, e ∈ (onMessage fails server now (some msg) self clientId).1.clients →
          e.2.state.exact = true) →
        (stateMsg (snapshot
            (onMessage fails server now (some msg) self clientId).1.clients)).stringify
          = stateMsg (snapshot (onMessage fails server now (some msg) self clientId).1.clients)) := by
  constructor
  · rw [onMessage_hello fails server now msg id self clientId htype hid hne]
    simp only
    rw [collectStates_eq_snapshot _
      (statesOk_mapSet self.clients id ⟨server, now, .null⟩ hok rfl)]
  · intro hex
    exact stringify_stateMsg_of_exact _ (snapshot_exact _ hex)

/-- Witness of C3: `C` joins `roomAB` on socket 2 and is sent the one stored state. -/
theorem C3_hello_replies_with_snapshot_witness :
    (onMessage noFail 2 7 (some helloC) roomAB none).1.log
      = [⟨.send 2 (stateMsg [.obj [("x", .num 1)]]), false⟩] :=
  (C3_hello_replies_with_snapshot noFail 2 7 helloC "C" roomAB none rfl rfl (by decide) rfl).1

/-- C4: for every registry (distinct keys, stored states `null` or truthy) and every tick at
time `now`, the tick leaves exactly the sessions that are not idle, and extends the trace by the
ping, then the calls of the prune pass, then one state message per remaining session whose
`clients` array is the snapshot of the remaining sessions (written by `JSON.stringify`). Hence a client with
`now - lastSeen > 20000` is out of the registry when the snapshot is computed, its entry is
neither read for the state message nor addressed by it, and a goodbye carrying its id is sent to
every remaining session during the prune pass, which sends no state message, so before the
state message of this tick. -/
theorem C4_tick_prunes_before_snapshot (fails : Oracle) (server : Conn) (now : Int)
    (self : RoomDurableObject) (hnd : (keys self.clients).Nodup)
    (hok : statesOk self.clients = true) :
    (heartbeat fails server now self).clients = self.clients.filter (fun e => !idle now e)
    ∧ (heartbeat fails server now self).log
        = self.log ++ stamp fails self.log.length
            (Effect.send server pingMsg
              :: (pruneCalls now self.clients self.clients
                  ++ sendsTo (heartbeat fails server now self).clients
                      (stateMsg (snapshot (heartbeat fails server now self).clients)).stringify))
    ∧ (∀ e, e ∈ self.clients → now - e.2.lastSeen > 20000 →
        e ∉ (heartbeat fails server now self).clients
        ∧ mapGet (heartbeat fails server now self).clients e.1 = none
        ∧ (∀ e', e' ∈ (heartbeat fails server now self).clients →
            Effect.send e'.2.ws (goodbyeMsg e.1) ∈ pruneCalls now self.clients self.clients)
        ∧ ((∀ e', e' ∈ (heartbeat fails server now self).clients → e'.2.ws ≠ e.2.ws) →
            ∀ p, Effect.send e.2.ws p ∉ sendsTo (heartbeat fails server now self).clients p))
    ∧ (∀ c, c ∈ pruneCalls now self.clients self.clients →
        ∀ ws cl, c ≠ Effect.send ws (stateMsg cl)) := by
  rw [heartbeat_eq fails server now self hnd]
  simp only
  refine ⟨trivial, ?_, ?_, ?_⟩
  · rw [collectStates_eq_snapshot _ (statesOk_filter _ _ hok)]
  · intro e he hgt
    have hi : idle now e = true := (idle_iff now e).mpr hgt
    refine ⟨?_, ?_, ?_, ?_⟩
    · intro hmem
      have := (List.mem_filter.mp hmem).2
      simp [hi] at this
    · exact mapGet_eq_none_of_not_mem _ _ (idle_key_not_kept now _ hnd e he hi)
    · intro e' he'
      rw [← pruneKeep_eq_filter now _ hnd] at he'
      exact pruneCalls_goodbye_sent now _ _ e he hi e' he'
    · intro hne p hmem
      obtain ⟨e', he', heq⟩ := List.mem_map.mp hmem
      simp only [Effect.send.injEq, and_true] at heq
      exact hne e' he' heq
  · intro c hc ws cl
    obtain ⟨e, _, _, h | ⟨e', _, _, h⟩⟩ := pruneCalls_only now _ _ c hc
    · rw [h]; simp
    · rw [h]; simp [goodbyeMsg, stateMsg]

/-- Witness of C4: at time 20001 the tick of socket 1 in `roomIdle` pings, closes and removes
`A`, tells `B` goodbye, then sends `B` the snapshot, which no longer holds the state of `A`. -/
theorem C4_tick_prunes_before_snapshot_witness :
    calls (heartbeat noFail 1 20001 roomIdle).log
      = [Effect.send 1 pingMsg, Effect.close 0 1001 "timeout",
         Effect.send 1 (goodbyeMsg "A"), Effect.send 1 (stateMsg [])] :=
  congrArg calls
    (C4_tick_prunes_before_snapshot noFail 1 20001 roomIdle (by decide) (by decide)).2.1

/-- C5, refuted as stated, on three runs from the empty room. (1) One connection says hello
as `A`, then as `B`, then closes: the entry of `A` stays and points to the closed socket 0.
(2) Two connections say hello as `A`, then the first closes: the registry is empty although
socket 1 is open, has said hello and was never pruned. (3) One connection says hello with the
truthy id `[]`, registered under the empty string, then closes: its entry stays. -/
theorem C5_counterexample_orphans_and_lost_entries :
    ((run noFail initSystem twoIdsThenClose).room.clients = [("A", ⟨0, 0, .null⟩)]
      ∧ ((run noFail initSystem twoIdsThenClose).conns 0).closed = true
      ∧ ¬ EntriesLive (run noFail initSystem twoIdsThenClose))
    ∧ ((run noFail initSystem sameIdThenClose).room.clients = []
      ∧ ((run noFail initSystem sameIdThenClose).conns 1).clientId = some "A"
      ∧ ((run noFail initSystem sameIdThenClose).conns 1).closed = false
      ∧ ((run noFail initSystem sameIdThenClose).conns 1).timedOut = false
      ∧ ¬ LiveHaveEntry (run noFail initSystem sameIdThenClose))
    ∧ ((run noFail initSystem emptyIdThenClose).room.clients = [("", ⟨0, 0, .null⟩)]
      ∧ ((run noFail initSystem emptyIdThenClose).conns 0).closed = true
      ∧ ¬ EntriesLive (run noFail initSystem emptyIdThenClose)) :=
  ⟨⟨rfl, rfl, by decide⟩, ⟨rfl, rfl, rfl, rfl, by decide⟩, ⟨rfl, rfl, by decide⟩⟩

/-- C5, amended: along every sequence of accept, message, tick and close events from the
empty room in which every hello registers a non-empty id, no connection says hello with an id
other than the one it has, and no hello claims an id held by another connection whose close
event is still to come, every reachable state has: no registry entry points to a connection
that is closed or was closed by a prune pass since its last hello; every accepted connection
that has said hello, is not closed and was not so pruned has an entry pointing to it, namely
the entry of its own id; each entry is stored under the id of its connection; keys are
distinct. -/
theorem C5_registry_matches_live_connections (fails : Oracle) (evs : List Event)
    (hd : disciplined fails initSystem evs = true) :
    EntriesLive (run fails initSystem evs)
    ∧ LiveHaveEntry (run fails initSystem evs)
    ∧ (∀ e, e ∈ (run fails initSystem evs).room.clients →
        e.2.ws < (run fails initSystem evs).accepted
        ∧ ((run fails initSystem evs).conns e.2.ws).clientId = some e.1)
    ∧ (∀ c id, c < (run fails initSystem evs).accepted →
        ((run fails initSystem evs).conns c).clientId = some id →
        ((run fails initSystem evs).conns c).closed = false →
        ((run fails initSystem evs).conns c).timedOut = false →
        ∃ s, mapGet (run fails initSystem evs).room.clients id = some s ∧ s.ws = c)
    ∧ (keys (run fails initSystem evs).room.clients).Nodup := by
  have h := inv_run fails evs initSystem inv_init hd
  have hconn : ∀ c id, c < (run fails initSystem evs).accepted →
      ((run fails initSystem evs).conns c).clientId = some id →
      ((run fails initSystem evs).conns c).closed = false →
      ((run fails initSystem evs).conns c).timedOut = false →
      ∃ s, (id, s) ∈ (run fails initSystem evs).room.clients ∧ s.ws = c := by
    intro c id hc hid hcl hto
    obtain ⟨e, he, hek, hew⟩ := (mem_bindings_iff _ _ _).mp (h.conn c id hc hid hcl hto)
    obtain ⟨k, s⟩ := e
    simp only at hek hew
    subst hek
    exact ⟨s, he, hew⟩
  refine ⟨?_, ?_, ?_, ?_, h.nodup⟩
  · intro e he
    have := h.entry e.1 e.2.ws ((mem_bindings_iff _ _ _).mpr ⟨e, he, rfl, rfl⟩)
    exact ⟨this.2.2.1, this.2.2.2⟩
  · intro c hc hid hcl hto
    obtain ⟨id, hid'⟩ := Option.ne_none_iff_exists'.mp hid
    obtain ⟨s, hs, hw⟩ := hconn c id hc hid' hcl hto
    exact ⟨(id, s), hs, hw⟩
  · intro e he
    have := h.entry e.1 e.2.ws ((mem_bindings_iff _ _ _).mpr ⟨e, he, rfl, rfl⟩)
    exact ⟨this.1, this.2.1⟩
  · intro c id hc hid hcl hto
    obtain ⟨s, hs, hw⟩ := hconn c id hc hid hcl hto
    exact ⟨s, mapGet_of_mem_nodup _ h.nodup id s hs, hw⟩

/-- Witness of C5 amended: `A` and `B` join on their own sockets, `A` publishes, a tick
passes, `A` closes; the run is disciplined and the registry holds exactly the live `B`. -/
theorem C5_registry_matches_live_connections_witness :
    disciplined noFail initSystem joinUpdateLeave = true
    ∧ EntriesLive (run noFail initSystem joinUpdateLeave)
    ∧ LiveHaveEntry (run noFail initSystem joinUpdateLeave) :=
  ⟨by decide,
    (C5_registry_matches_live_connections noFail joinUpdateLeave (by decide)).1,
    (C5_registry_matches_live_connections noFail joinUpdateLeave (by decide)).2.1⟩

/-- C6: removal is idempotent. (1) The close of a connection identified as a registered `id`
removes `id` and sends `goodbye{id}` once per remaining session; (2) a prune pass removes every
idle id. (3) Once `id` is out of the registry, whatever events follow (ticks with their prune
passes, close events, messages), as long as none of them is a hello registering `id`, the
registry never holds `id` and no `goodbye{id}` is ever sent again. (4) In particular the close
listener of a connection identified as an absent `id` returns the room unchanged (registry and
trace), and (5) a prune pass on a registry without `id` keeps it absent, sends no `goodbye{id}`,
and changes nothing at all when no session is idle. (6) Running the close listener a second
time changes nothing. All functions are total: no error is raised. -/
theorem C6_removal_idempotent (fails : Oracle) :
    (∀ (self : RoomDurableObject) (id : String), id ≠ "" → mapHas self.clients id = true →
        mapHas (onClose fails self (some id)).clients id = false
        ∧ newCalls self (onClose fails self (some id))
            = sendsTo (onClose fails self (some id)).clients (goodbyeMsg id))
    ∧ (∀ (self : RoomDurableObject) (now : Int) (e : String × Session), e ∈ self.clients →
        now - e.2.lastSeen > 20000 → mapHas (prune fails now self).clients e.1 = false)
    ∧ (∀ (sys : System) (id : String) (evs : List Event), mapHas sys.room.clients id = false →
        (∀ ev, ev ∈ evs → ev.helloId ≠ some id) →
        mapHas (run fails sys evs).room.clients id = false
        ∧ ∀ ws, Effect.send ws (goodbyeMsg id) ∉ newCalls sys.room (run fails sys evs).room)
    ∧ (∀ (self : RoomDurableObject) (id : String), mapHas self.clients id = false →
        onClose fails self (some id) = self)
    ∧ (∀ (self : RoomDurableObject) (now : Int) (id : String), mapHas self.clients id = false →
        mapHas (prune fails now self).clients id = false
        ∧ (∀ ws, Effect.send ws (goodbyeMsg id) ∉ newCalls self (prune fails now self))
        ∧ ((∀ e, e ∈ self.clients → idle now e = false) → prune fails now self = self))
    ∧ (∀ (self : RoomDurableObject) (clientId : Option String),
        onClose fails (onClose fails self clientId) clientId = onClose fails self clientId) := by
  refine ⟨?_, ?_, ?_, ?_, ?_, ?_⟩
  · intro self id hne hhas
    rcases onClose_cases fails self (some id) with ⟨id', hid, _, _, h⟩ | h
    · cases hid
      rw [h]
      exact ⟨mapHas_mapDelete_self _ _, newCalls_of_log fails _ _ _ rfl⟩
    · have : onClose fails self (some id)
          = broadcast fails { self with clients := mapDelete self.clients id }
              (goodbyeMsg id) none := by
        simp [onClose, idTruthy, hne, hhas]
      rw [this]
      exact ⟨mapHas_mapDelete_self _ _,
        newCalls_of_log fails _ _ _ (by rw [broadcast_log, recipients_none]; rfl)⟩
  · intro self now e he hgt
    have hi : idle now e = true := (idle_iff now e).mpr hgt
    rw [prune, pruneLoop_eq]
    simp only
    rw [pruneKeep_eq_filter_keys, mapHas_false_iff]
    intro hmem
    obtain ⟨y, hy, hyk⟩ := List.mem_map.mp hmem
    have hk := (List.mem_filter.mp hy).2
    have : y.1 ∈ keys (self.clients.filter (idle now)) := by
      rw [hyk]
      exact mem_keys_of_mem _ e (List.mem_filter.mpr ⟨he, hi⟩)
    simp [this] at hk
  · intro sys id evs habs hno
    obtain ⟨h1, es, hlog, hes⟩ := run_absent fails evs sys id habs hno
    refine ⟨h1, ?_⟩
    rw [newCalls_of_log fails _ _ es hlog]
    exact hes
  · intro self id habs
    exact onClose_eq_self fails self (some id) (Or.inr ⟨id, rfl, habs⟩)
  · intro self now id habs
    have hp : prune fails now self
        = ⟨pruneKeep now self.clients self.clients,
            self.log ++ stamp fails self.log.length
              (pruneCalls now self.clients self.clients)⟩ := by
      rw [prune, pruneLoop_eq]
    refine ⟨?_, ?_, ?_⟩
    · rw [hp]
      simp only
      rw [pruneKeep_eq_filter_keys]
      exact mapHas_filter_false _ _ _ habs
    · rw [newCalls_of_log fails _ _ _ (congrArg RoomDurableObject.log hp)]
      intro ws
      exact pruneCalls_no_goodbye now _ id habs ws
    · intro hnone
      have hgen : ∀ (l : List (String × Session)) (s : RoomDurableObject),
          (∀ e, e ∈ l → idle now e = false) → pruneLoop fails now l s = s := by
        intro l
        induction l with
        | nil => intro s _; rfl
        | cons x rest ih =>
          intro s hl
          have hx : ¬ (now - x.2.lastSeen > 20000) := by
            have := hl x (List.mem_cons_self _ _)
            simpa [idle] using this
          obtain ⟨xid, xc⟩ := x
          simp only [pruneLoop]
          rw [if_neg hx]
          exact ih s (fun e he => hl e (List.mem_cons_of_mem _ he))
      exact hgen self.clients self hnone
  · intro self clientId
    rcases onClose_cases fails self clientId with ⟨id, hid, _, _, h⟩ | h
    · rw [h]
      exact onClose_eq_self fails _ clientId (Or.inr ⟨id, hid, mapHas_mapDelete_self _ _⟩)
    · rw [h, h]

/-- Witness of C6: in `sysIdle`, the tick at 20001 prunes `A`; when the close event of socket 0
(identified as `A`) fires afterwards, nothing is sent and `A` is still absent; and closing
socket 0 twice from the start sends the goodbye once. -/
theorem C6_removal_idempotent_witness :
    (mapHas (run noFail (step noFail sysIdle (.tick 1 20001)) [.close 0]).room.clients "A" = false
      ∧ ∀ ws, Effect.send ws (goodbyeMsg "A")
          ∉ newCalls (step noFail sysIdle (.tick 1 20001)).room
              (run noFail (step noFail sysIdle (.tick 1 20001)) [.close 0]).room)
    ∧ onClose noFail (onClose noFail roomIdle (some "A")) (some "A")
        = onClose noFail roomIdle (some "A") :=
  ⟨(C6_removal_idempotent noFail).2.2.1 (step noFail sysIdle (.tick 1 20001)) "A" [.close 0]
      (by decide) (by intro ev hev; simp at hev; subst hev; simp [Event.helloId]),
    (C6_removal_idempotent noFail).2.2.2.2.2 roomIdle (some "A")⟩

/-- C7: on the close event of a connection identified with `id` (its `clientId` is the
non-empty string `id`) that is in the registry, exactly the entry of `id` is removed (the other
entries keep their value and their order) and the trace grows by exactly one send of
`goodbye{id}` per remaining session, in registry order; if the connection is unidentified (its
`clientId` is `null` or empty), or its id is not in the registry, the room (registry and trace)
is unchanged. -/
theorem C7_close_removes_and_announces (fails : Oracle) (self : RoomDurableObject)
    (clientId : Option String) :
    (∀ id, clientId = some id → id ≠ "" → mapHas self.clients id = true →
        (onClose fails self clientId).clients
            = self.clients.filter (fun e => !decide (e.1 = id))
        ∧ mapGet (onClose fails self clientId).clients id = none
        ∧ (∀ k, k ≠ id → mapGet (onClose fails self clientId).clients k = mapGet self.clients k)
        ∧ (onClose fails self clientId).log
            = self.log ++ stamp fails self.log.length
                (sendsTo (onClose fails self clientId).clients (goodbyeMsg id)))
    ∧ ((clientId = none ∨ clientId = some ""
          ∨ ∃ id, clientId = some id ∧ mapHas self.clients id = false) →
        onClose fails self clientId = self) := by
  constructor
  · intro id hc hne hhas
    subst hc
    have h : onClose fails self (some id)
        = broadcast fails { self with clients := mapDelete self.clients id }
            (goodbyeMsg id) none := by
      simp [onClose, idTruthy, hne, hhas]
    rw [h]
    refine ⟨rfl, ?_, ?_, ?_⟩
    · exact mapGet_mapDelete_same self.clients id
    · intro k hk
      exact mapGet_mapDelete_other self.clients id k hk
    · rw [broadcast_log, recipients_none]
      rfl
  · rintro (hc | hc | ⟨id, hc, hhas⟩)
    · subst hc
      simp [onClose, idTruthy]
    · subst hc
      simp [onClose, idTruthy]
    · subst hc
      simp [onClose, hhas]

/-- Witness of C7: closing the connection of `A` in `roomAB` leaves `B` and tells it goodbye;
closing an unidentified connection changes nothing. -/
theorem C7_close_removes_and_announces_witness :
    calls (onClose noFail roomAB (some "A")).log = [Effect.send 1 (goodbyeMsg "A")]
    ∧ onClose noFail roomAB none = roomAB :=
  ⟨congrArg calls
      (((C7_close_removes_and_announces noFail roomAB (some "A")).1 "A" rfl (by decide) rfl).2.2.2),
    (C7_close_removes_and_announces noFail roomAB none).2 (Or.inl rfl)⟩

/-- C8: for every registry with distinct keys and every time `now`, the prune pass keeps
exactly the sessions that are not idle, unchanged and in their order, where idle means
`now - lastSeen > 20000` strictly (a session idle for exactly 20000 is kept); its `close` calls
are exactly one `close(1001, 'timeout')` per idle session, in registry order, so no other
session is closed; each idle session is removed and a goodbye with its id is sent to every
remaining session. In particular, for a session last seen at `t0` (its hello), a tick with
`now > t0 + 20000` closes it with the timeout reason, removes it and announces it, and a tick
with `now ≤ t0 + 20000` keeps it. -/
theorem C8_prune_closes_exactly_idle (fails : Oracle) (now : Int) (self : RoomDurableObject)
    (hnd : (keys self.clients).Nodup) :
    (prune fails now self).clients = self.clients.filter (fun e => !idle now e)
    ∧ (prune fails now self).log
        = self.log ++ stamp fails self.log.length (pruneCalls now self.clients self.clients)
    ∧ (pruneCalls now self.clients self.clients).filter Effect.isClose
        = (self.clients.filter (idle now)).map (fun e => Effect.close e.2.ws 1001 "timeout")
    ∧ (∀ e, idle now e = true ↔ now - e.2.lastSeen > 20000)
    ∧ (∀ e, e ∈ self.clients → now - e.2.lastSeen = 20000 → e ∈ (prune fails now self).clients)
    ∧ (∀ e, e ∈ self.clients → now - e.2.lastSeen > 20000 →
        Effect.close e.2.ws 1001 "timeout" ∈ pruneCalls now self.clients self.clients
        ∧ mapGet (prune fails now self).clients e.1 = none
        ∧ (∀ e', e' ∈ (prune fails now self).clients →
            Effect.send e'.2.ws (goodbyeMsg e.1) ∈ pruneCalls now self.clients self.clients))
    ∧ (∀ e, e ∈ (prune fails now self).clients →
        (∀ x, x ∈ self.clients → idle now x = true → x.2.ws ≠ e.2.ws) →
        ∀ code reason, Effect.close e.2.ws code reason ∉ pruneCalls now self.clients self.clients)
    ∧ (∀ server id ws t0 st, (id, (⟨ws, t0, st⟩ : Session)) ∈ self.clients →
        (now > t0 + 20000 →
          (∃ before after, calls (heartbeat fails server now self).log
              = calls self.log ++ before ++ Effect.close ws 1001 "timeout" :: after)
          ∧ mapGet (heartbeat fails server now self).clients id = none
          ∧ (∀ e', e' ∈ (heartbeat fails server now self).clients →
              ∃ before after, calls (heartbeat fails server now self).log
                = calls self.log ++ before ++ Effect.send e'.2.ws (goodbyeMsg id) :: after))
        ∧ (now ≤ t0 + 20000 →
            (id, (⟨ws, t0, st⟩ : Session)) ∈ (heartbeat fails server now self).clients)) := by
  have hclose : ∀ e, e ∈ self.clients → idle now e = true →
      Effect.close e.2.ws 1001 "timeout" ∈ pruneCalls now self.clients self.clients := by
    intro e he hi
    have hm : Effect.close e.2.ws 1001 "timeout"
        ∈ (self.clients.filter (idle now)).map (fun e => Effect.close e.2.ws 1001 "timeout") :=
      List.mem_map.mpr ⟨e, List.mem_filter.mpr ⟨he, hi⟩, rfl⟩
    rw [← pruneCalls_closes now self.clients self.clients] at hm
    exact (List.mem_filter.mp hm).1
  have hbye : ∀ e, e ∈ self.clients → idle now e = true →
      ∀ e', e' ∈ self.clients.filter (fun e => !idle now e) →
        Effect.send e'.2.ws (goodbyeMsg e.1) ∈ pruneCalls now self.clients self.clients := by
    intro e he hi e' he'
    rw [← pruneKeep_eq_filter now _ hnd] at he'
    exact pruneCalls_goodbye_sent now _ _ e he hi e' he'
  have hsplit : ∀ server (c : Effect), c ∈ pruneCalls now self.clients self.clients →
      ∃ before after, calls (heartbeat fails server now self).log
        = calls self.log ++ before ++ c :: after := by
    intro server c hc
    obtain ⟨s, t, hst⟩ := List.append_of_mem hc
    refine ⟨Effect.send server pingMsg :: s, t ++ sendsTo (self.clients.filter (fun e => !idle now e))
      (stateMsg (collectStates (self.clients.filter (fun e => !idle now e)))).stringify, ?_⟩
    rw [heartbeat_eq fails server now self hnd]
    simp only
    rw [calls_append_stamp, hst]
    simp
  rw [prune_eq fails now self hnd]
  simp only
  refine ⟨trivial, trivial, pruneCalls_closes now _ _, idle_iff now, ?_, ?_, ?_, ?_⟩
  · intro e he heq
    refine List.mem_filter.mpr ⟨he, ?_⟩
    have : ¬ (now - e.2.lastSeen > 20000) := by omega
    simp [idle, this]
  · intro e he hgt
    have hi : idle now e = true := (idle_iff now e).mpr hgt
    exact ⟨hclose e he hi,
      mapGet_eq_none_of_not_mem _ _ (idle_key_not_kept now _ hnd e he hi), hbye e he hi⟩
  · intro e _ hne code reason hmem
    obtain ⟨x, hx, hxi, h | ⟨e', _, _, h⟩⟩ := pruneCalls_only now _ _ _ hmem
    · simp only [Effect.close.injEq] at h
      exact hne x hx hxi h.1.symm
    · simp at h
  · intro server id ws t0 st hmem
    constructor
    · intro hgt
      have hi : idle now (id, (⟨ws, t0, st⟩ : Session)) = true := by
        rw [idle_iff]; simp only; omega
      refine ⟨hsplit server _ (hclose _ hmem hi), ?_, ?_⟩
      · rw [heartbeat_eq fails server now self hnd]
        exact mapGet_eq_none_of_not_mem _ _ (idle_key_not_kept now _ hnd _ hmem hi)
      · intro e' he'
        rw [heartbeat_eq fails server now self hnd] at he'
        exact hsplit server _ (hbye _ hmem hi e' he')
    · intro hle
      rw [heartbeat_eq fails server now self hnd]
      refine List.mem_filter.mpr ⟨hmem, ?_⟩
      have : ¬ (now - t0 > 20000) := by omega
      simp [idle, this]

/-- Witness of C8: in `roomIdle` at time 20001 the prune pass closes socket 0 with
`1001/'timeout'`, removes `A`, tells `B` goodbye, and keeps `B` as it was. -/
theorem C8_prune_closes_exactly_idle_witness :
    (prune allFail 20001 roomIdle).clients = [("B", ⟨1, 15000, .null⟩)]
    ∧ calls (prune allFail 20001 roomIdle).log
        = [Effect.close 0 1001 "timeout", Effect.send 1 (goodbyeMsg "A")] :=
  ⟨(C8_prune_closes_exactly_idle allFail 20001 roomIdle (by decide)).1,
    congrArg calls (C8_prune_closes_exactly_idle allFail 20001 roomIdle (by decide)).2.1⟩

/-- C9: for every registry whose stored states are `null` or truthy, `snapshotTick` leaves the
registry unchanged and extends the trace by exactly one send per registered session (none
excluded), in registry order, of the state message whose `clients` array is the sequence of all
non-null stored states in registry order; this holds whatever sends fail. The message goes
through `JSON.stringify`; the text reads as that very message when the stored states hold no
number that `JSON.stringify` rewrites (not finite, or `-0`). -/
theorem C9_snapshotTick_sends_snapshot_to_all (fails : Oracle) (self : RoomDurableObject)
    (hok : statesOk self.clients = true) :
    (snapshotTick fails self).clients = self.clients
    ∧ (snapshotTick fails self).log
        = self.log ++ stamp fails self.log.length
            (sendsTo self.clients (stateMsg (snapshot self.clients)).stringify)
    ∧ calls (snapshotTick fails self).log
        = calls self.log ++ sendsTo self.clients (stateMsg (snapshot self.clients)).stringify
    ∧ ((∀ e, e ∈ self.clients → e.2.state.exact = true) →
        (stateMsg (snapshot self.clients)).stringify = stateMsg (snapshot self.clients)) := by
  have hlog : (snapshotTick fails self).log
      = self.log ++ stamp fails self.log.length
          (sendsTo self.clients (stateMsg (snapshot self.clients)).stringify) := by
    rw [snapshotTick, broadcast_log, recipients_none, collectStates_eq_snapshot _ hok]
  refine ⟨rfl, hlog, ?_, ?_⟩
  · rw [hlog, calls_append_stamp]
  · intro hex
    exact stringify_stateMsg_of_exact _ (snapshot_exact _ hex)

/-- Witness of C9: in `roomAB` both sockets are sent the one stored state, even when every
send throws. -/
theorem C9_snapshotTick_sends_snapshot_to_all_witness :
    calls (snapshotTick allFail roomAB).log
      = [Effect.send 0 (stateMsg [.obj [("x", .num 1)]]),
         Effect.send 1 (stateMsg [.obj [("x", .num 1)]])] :=
  (C9_snapshotTick_sends_snapshot_to_all allFail roomAB (by decide)).2.2.1

/-- C10: for every registry, connection `c`, time `now` and non-empty id, after `hello{id}` on
`c` the connection is identified as `id`, the registry maps `id` to the session
`{ws: c, lastSeen: now, state: null}` whether or not `id` was present, every other key keeps its
session, a present key keeps its position and an absent one is appended, so the number of keys
grows by one exactly when `id` was absent. -/
theorem C10_hello_registers_or_overwrites (fails : Oracle) (c : Conn) (now : Int) (msg : Json)
    (id : String) (self : RoomDurableObject) (clientId : Option String)
    (htype : msg.prop "type" = some (.str "hello")) (hid : msg.prop "id" = some (.str id))
    (hne : id ≠ "") :
    (onMessage fails c now (some msg) self clientId).2 = some id
    ∧ mapGet (onMessage fails c now (some msg) self clientId).1.clients id
        = some ⟨c, now, .null⟩
    ∧ (∀ k, k ≠ id →
        mapGet (onMessage fails c now (some msg) self clientId).1.clients k
          = mapGet self.clients k)
    ∧ keys (onMessage fails c now (some msg) self clientId).1.clients
        = (if mapHas self.clients id = true then keys self.clients else keys self.clients ++ [id])
    ∧ (keys (onMessage fails c now (some msg) self clientId).1.clients).length
        = (keys self.clients).length + (if mapHas self.clients id = true then 0 else 1) := by
  rw [onMessage_hello fails c now msg id self clientId htype hid hne]
  refine ⟨rfl, mapGet_mapSet_same _ _ _, ?_, keys_mapSet _ _ _, ?_⟩
  · intro k hk
    exact mapGet_mapSet_other _ _ _ _ hk
  · simp only
    rw [keys_mapSet]
    split <;> simp

/-- Witness of C10: a second connection (socket 9) claims the present id `A` in `roomAB`: the
entry is overwritten in place, its stored state and socket replaced, and no key is added. -/
theorem C10_hello_registers_or_overwrites_witness :
    mapGet (onMessage noFail 9 8 (some helloA) roomAB none).1.clients "A" = some ⟨9, 8, .null⟩
    ∧ keys (onMessage noFail 9 8 (some helloA) roomAB none).1.clients = ["A", "B"] :=
  ⟨(C10_hello_registers_or_overwrites noFail 9 8 helloA "A" roomAB none rfl rfl
      (by decide)).2.1,
    (C10_hello_registers_or_overwrites noFail 9 8 helloA "A" roomAB none rfl rfl
      (by decide)).2.2.2.1⟩

/-- C11: for every room state, a frame that is not well-formed JSON, or that parses to a value
whose `type` is neither `'hello'` nor `'update'` (this includes `null` and every value that is
not an object), or to a hello whose `id` is absent (or falsy), or to an update whose `state` is
absent (or falsy), is ignored: the listener returns the room (registry and trace, so nothing is
sent or closed) and the connection's `clientId` unchanged. The listener is a total function:
no error is raised. -/
theorem C11_malformed_or_unknown_ignored (fails : Oracle) (server : Conn) (now : Int)
    (parsed : Option Json) (self : RoomDurableObject) (clientId : Option String)
    (h : parsed = none
      ∨ ∃ msg, parsed = some msg
        ∧ ((msg.prop "type" ≠ some (.str "hello") ∧ msg.prop "type" ≠ some (.str "update"))
          ∨ (msg.prop "type" = some (.str "hello") ∧ optTruthy (msg.prop "id") = false)
          ∨ (msg.prop "type" = some (.str "update") ∧ optTruthy (msg.prop "state") = false))) :
    onMessage fails server now parsed self clientId = (self, clientId) := by
  rcases h with rfl | ⟨msg, rfl, h⟩
  · rfl
  · apply onMessage_ignored
    · rcases h with ⟨h1, _⟩ | ⟨_, h2⟩ | ⟨h1, _⟩
      · have := (strictEqStr_eq_true_iff (msg.prop "type") "hello").not.mpr h1
        simp [this]
      · simp [h2]
      · rw [h1]; simp [strictEqStr]
    · rcases h with ⟨_, h2⟩ | ⟨h1, _⟩ | ⟨_, h2⟩
      · have := (strictEqStr_eq_true_iff (msg.prop "type") "update").not.mpr h2
        simp [this]
      · rw [h1]; simp [strictEqStr]
      · simp [h2]

/-- Witness of C11: in `roomAB`, a frame that does not parse, the frame `{"type":"hello"}`
and the frame `{"type":"update"}` are all ignored on the connection of `A`. -/
theorem C11_malformed_or_unknown_ignored_witness :
    onMessage allFail 0 5 none roomAB (some "A") = (roomAB, some "A")
    ∧ onMessage allFail 0 5 (some helloNoId) roomAB (some "A") = (roomAB, some "A")
    ∧ onMessage allFail 0 5 (some updateNoState) roomAB (some "A") = (roomAB, some "A") :=
  ⟨C11_malformed_or_unknown_ignored allFail 0 5 none roomAB (some "A") (Or.inl rfl),
    C11_malformed_or_unknown_ignored allFail 0 5 (some helloNoId) roomAB (some "A")
      (Or.inr ⟨helloNoId, rfl, Or.inr (Or.inl ⟨rfl, rfl⟩)⟩),
    C11_malformed_or_unknown_ignored allFail 0 5 (some updateNoState) roomAB (some "A")
      (Or.inr ⟨updateNoState, rfl, Or.inr (Or.inr ⟨rfl, rfl⟩)⟩)⟩

/-- C12: for every room state, an update message (whatever its state) arriving on a
connection that is still unidentified (`clientId` is `null`, or falsy), or whose id has no
entry in the registry, is ignored: the registry and the trace are unchanged (nothing is sent),
`clientId` keeps its value (no identity is assigned), and no error is raised. -/
theorem C12_update_without_session_ignored (fails : Oracle) (server : Conn) (now : Int)
    (msg : Json) (self : RoomDurableObject) (clientId : Option String)
    (htype : msg.prop "type" = some (.str "update"))
    (h : idTruthy clientId = false
      ∨ ∃ id, clientId = some id ∧ mapHas self.clients id = false) :
    onMessage fails server now (some msg) self clientId = (self, clientId) := by
  rcases onMessage_cases fails server now (some msg) self clientId with
    ⟨id, hid, _⟩ | ⟨_, A, c, S, hc, hA, hg, _, _⟩ | ⟨_, hout⟩
  · rw [helloId_eq_none_of_type msg (by rw [htype]; simp)] at hid
    exact Option.noConfusion hid
  · exfalso
    rcases h with h | ⟨id, hid, hhas⟩
    · rw [hc] at h
      simp [idTruthy, hA] at h
    · rw [hc] at hid
      cases hid
      rw [mapHas_of_mapGet _ _ _ hg] at hhas
      exact Bool.noConfusion hhas
  · exact hout

/-- Witness of C12: in `roomAB`, `update{state:{x:2}}` is ignored on an unidentified
connection and on a connection identified as the absent id `Z`. -/
theorem C12_update_without_session_ignored_witness :
    onMessage noFail 7 5 (some updateX2) roomAB none = (roomAB, none)
    ∧ onMessage noFail 7 5 (some updateX2) roomAB (some "Z") = (roomAB, some "Z") :=
  ⟨C12_update_without_session_ignored noFail 7 5 updateX2 roomAB none rfl (Or.inl rfl),
    C12_update_without_session_ignored noFail 7 5 updateX2 roomAB (some "Z") rfl
      (Or.inr ⟨"Z", rfl, rfl⟩)⟩

/-- C13, refuted as stated: `update{state:0}` is an update carrying a state value, sent by the
registered client `A` at time 5; afterwards the session of `A` still has `lastSeen = 0` and its
old state, and the tick at 20001, less than 20000 after that message, prunes `A`. -/
theorem C13_counterexample_falsy_update_not_counted :
    updateZero.prop "type" = some (.str "update")
    ∧ updateZero.prop "state" = some (.num 0)
    ∧ mapGet roomAB.clients "A" = some ⟨0, 0, .obj [("x", .num 1)]⟩
    ∧ mapGet (onMessage noFail 0 5 (some updateZero) roomAB (some "A")).1.clients "A"
        = some ⟨0, 0, .obj [("x", .num 1)]⟩
    ∧ (mapGet (onMessage noFail 0 5 (some updateZero) roomAB (some "A")).1.clients "A").map
        Session.lastSeen ≠ some 5
    ∧ (20001 : Int) - 5 ≤ 20000
    ∧ mapGet (heartbeat noFail 1 20001
        (onMessage noFail 0 5 (some updateZero) roomAB (some "A")).1).clients "A" = none :=
  ⟨rfl, rfl, rfl, rfl, by decide, by decide, rfl⟩

/-- C13, amended: for every registry with distinct keys and every message accepted at time
`now`, that is a hello with a non-empty id, or an update carrying a truthy state `S` from a
connection identified as a registered id, the session of that id has `lastSeen = now`
afterwards, and after the update its stored state is `S` (its connection is kept); hence a tick
at a time `t` with `t - now ≤ 20000` does not prune it. -/
theorem C13_accepted_message_refreshes (fails : Oracle) (server : Conn) (now : Int)
    (self : RoomDurableObject) (hnd : (keys self.clients).Nodup) :
    (∀ (msg : Json) (id : String) (clientId : Option String),
        msg.prop "type" = some (.str "hello") → msg.prop "id" = some (.str id) → id ≠ "" →
        mapGet (onMessage fails server now (some msg) self clientId).1.clients id
            = some ⟨server, now, .null⟩
        ∧ ∀ (fails' : Oracle) (server' : Conn) (t : Int), t - now ≤ 20000 →
            mapGet (heartbeat fails' server' t
                (onMessage fails server now (some msg) self clientId).1).clients id
              = some ⟨server, now, .null⟩)
    ∧ (∀ (msg S : Json) (A : String) (c : Session),
        msg.prop "type" = some (.str "update") → msg.prop "state" = some S → S.truthy = true →
        A ≠ "" → mapGet self.clients A = some c →
        mapGet (onMessage fails server now (some msg) self (some A)).1.clients A
            = some ⟨c.ws, now, S⟩
        ∧ ∀ (fails' : Oracle) (server' : Conn) (t : Int), t - now ≤ 20000 →
            mapGet (heartbeat fails' server' t
                (onMessage fails server now (some msg) self (some A)).1).clients A
              = some ⟨c.ws, now, S⟩) := by
  have hkeep : ∀ (room : RoomDurableObject) (k : String) (s : Session) (fails' : Oracle)
      (server' : Conn) (t : Int), (keys room.clients).Nodup → mapGet room.clients k = some s →
      t - s.lastSeen ≤ 20000 → mapGet (heartbeat fails' server' t room).clients k = some s := by
    intro room k s fails' server' t hn hg ht
    rw [heartbeat_eq fails' server' t room hn]
    apply mapGet_filter_of_pos _ _ _ _ hg
    have : ¬ (t - s.lastSeen > 20000) := by omega
    simp [idle, this]
  constructor
  · intro msg id clientId htype hid hne
    rw [onMessage_hello fails server now msg id self clientId htype hid hne]
    refine ⟨mapGet_mapSet_same _ _ _, ?_⟩
    intro fails' server' t ht
    exact hkeep _ id _ fails' server' t (nodup_keys_mapSet _ _ _ hnd) (mapGet_mapSet_same _ _ _) ht
  · intro msg S A c htype hstate hS hA hg
    rw [onMessage_update fails server now msg S A c self htype hstate hS hA hg]
    refine ⟨mapGet_mapSet_same _ _ _, ?_⟩
    intro fails' server' t ht
    exact hkeep _ A _ fails' server' t (nodup_keys_mapSet _ _ _ hnd) (mapGet_mapSet_same _ _ _) ht

/-- Witness of C13 amended: `A` publishes `{x:2}` in `roomAB` at time 5; its session is then
`{ws: 0, lastSeen: 5, state: {x:2}}` and survives the tick at 20005. -/
theorem C13_accepted_message_refreshes_witness :
    mapGet (onMessage noFail 0 5 (some updateX2) roomAB (some "A")).1.clients "A"
        = some ⟨0, 5, .obj [("x", .num 2)]⟩
    ∧ mapGet (heartbeat noFail 1 20005
        (onMessage noFail 0 5 (some updateX2) roomAB (some "A")).1).clients "A"
        = some ⟨0, 5, .obj [("x", .num 2)]⟩ :=
  ⟨((C13_accepted_message_refreshes noFail 0 5 roomAB (by decide)).2 updateX2
      (.obj [("x", .num 2)]) "A" ⟨0, 0, .obj [("x", .num 1)]⟩ rfl rfl rfl (by decide) rfl).1,
    ((C13_accepted_message_refreshes noFail 0 5 roomAB (by decide)).2 updateX2
      (.obj [("x", .num 2)]) "A" ⟨0, 0, .obj [("x", .num 1)]⟩ rfl rfl rfl (by decide) rfl).2
      noFail 1 20005 (by decide)⟩

/-- C14, refuted as stated: a connection says hello as `A`, then as `B`. After the first
hello its id is `A`; after the second it is `B`; a later update of that connection is stored
under `B` (the entry of `A` keeps its `null` state), and its close removes `B` and leaves
`A`. -/
theorem C14_counterexample_second_hello_replaces_id :
    ((run noFail initSystem [.accept, .message 0 (some helloA) 0]).conns 0).clientId = some "A"
    ∧ ((run noFail initSystem twoIds).conns 0).clientId = some "B"
    ∧ (run noFail initSystem (twoIds ++ [.message 0 (some updateX2) 2])).room.clients
        = [("A", ⟨0, 0, .null⟩), ("B", ⟨0, 2, .obj [("x", .num 2)]⟩)]
    ∧ (run noFail initSystem (twoIds ++ [.close 0])).room.clients = [("A", ⟨0, 0, .null⟩)] :=
  ⟨rfl, rfl, rfl, rfl⟩

/-- C14, amended: the id of a connection is the id of its latest accepted hello. For every
accepted connection `c` whose close event has not been handled and every sequence of events
without the close of `c`, the `clientId` of `c` afterwards is the id registered by the latest
hello accepted on `c` in the sequence (its former value when there is none), it is the id
under which the next message and the close of `c` are processed, and a frame that is not an
accepted hello never changes it. -/
theorem C14_identity_is_latest_hello (fails : Oracle) (sys : System) (c : Conn)
    (evs : List Event) (hc : c < sys.accepted) (hopen : (sys.conns c).closed = false)
    (hne : ∀ ev, ev ∈ evs → ev ≠ .close c) :
    ((run fails sys evs).conns c).clientId = lastHello c evs (sys.conns c).clientId
    ∧ (∀ parsed now, (step fails (run fails sys evs) (.message c parsed now)).room
        = (onMessage fails c now parsed (run fails sys evs).room
            (lastHello c evs (sys.conns c).clientId)).1)
    ∧ (step fails (run fails sys evs) (.close c)).room
        = onClose fails (run fails sys evs).room (lastHello c evs (sys.conns c).clientId)
    ∧ (∀ parsed now (self : RoomDurableObject) (cur : Option String),
        helloId parsed = none → (onMessage fails c now parsed self cur).2 = cur) := by
  obtain ⟨h1, h2, h3⟩ := run_identity fails evs sys c hc hopen hne
  have hl : live (run fails sys evs) c = true := (live_iff _ c).mpr ⟨h1, h2⟩
  refine ⟨h3, ?_, ?_, ?_⟩
  · intro parsed now
    simp only [step, hl, if_true, h3]
  · simp only [step, hl, if_true, h3]
  · intro parsed now self cur hnone
    rw [onMessage_snd]
    simp [idAfter, hnone]

/-- Witness of C14 amended: on an accepted connection, hello `A`, an update, then hello `B`
leave the connection identified as `B`. -/
theorem C14_identity_is_latest_hello_witness :
    ((run noFail (step noFail initSystem .accept)
        [.message 0 (some helloA) 0, .message 0 (some updateX2) 1,
         .message 0 (some helloB) 2]).conns 0).clientId = some "B" :=
  (C14_identity_is_latest_hello noFail (step noFail initSystem .accept) 0
    [.message 0 (some helloA) 0, .message 0 (some updateX2) 1, .message 0 (some helloB) 2]
    (by decide) rfl
    (by
      intro ev hev
      simp only [List.mem_cons, List.mem_singleton, List.not_mem_nil, or_false] at hev
      rcases hev with h | h | h <;> rw [h] <;> simp)).1

/-- C15, refuted as stated, on two runs. (1) `A` and `B` join and `A` sends
`update{state:0}`: `A` is not removed, re-registered or updated again, yet the state message of
the next tick carries an empty `clients` array, without `0`. (2) `A` and `B` join and both
publish `{x:1}`: the state message of the next tick holds the value `{x:1}` twice. -/
theorem C15_counterexample_falsy_or_equal_states :
    newCalls (run noFail initSystem joinThenUpdateZero).room
        (step noFail (run noFail initSystem joinThenUpdateZero) (.tick 0 5000)).room
      = [Effect.send 0 pingMsg, Effect.send 0 (stateMsg []), Effect.send 1 (stateMsg [])]
    ∧ newCalls (run noFail initSystem joinThenBothUpdate).room
        (step noFail (run noFail initSystem joinThenBothUpdate) (.tick 0 5000)).room
      = [Effect.send 0 pingMsg,
         Effect.send 0 (stateMsg [.obj [("x", .num 1)], .obj [("x", .num 1)]]),
         Effect.send 1 (stateMsg [.obj [("x", .num 1)], .obj [("x", .num 1)]])] :=
  ⟨rfl, rfl⟩

/-- C15, amended: let a connection identified as the registered id `A` send an update with a
truthy state `S` at time `now`, followed by any events that leave the session of `A` alone (no
hello registering `A`, no accepted update and no close on a connection identified as `A`, no
tick at which `A` is idle). Then the session of `A` still stores `S` with `lastSeen = now`;
every later tick at which `A` is not idle sends each remaining session, `A` included, a state
message that holds `S` once for the session of `A`; every later hello for another id is answered
with a state message that holds `S` once for the session of `A`. Other sessions may store equal
values; when none does, `S` occurs exactly once. The state messages are written by
`JSON.stringify`, under which a number of `S` that is not finite reads `null` and `-0` reads
`0`. Concretely, after `A` and `B` say hello in
that order and `A` sends `update{state:{x:1}}`, `B` is sent `state{clients:[{x:1}]}` and the
next tick sends `state{clients:[{x:1}]}` to `A` and to `B`. -/
theorem C15_truthy_state_retained_until_removal (fails : Oracle) (sys0 : System) (c : Conn)
    (now : Int) (msg S : Json) (A : String) (evs : List Event)
    (hnd : (keys sys0.room.clients).Nodup) (hlive : live sys0 c = true)
    (hid : (sys0.conns c).clientId = some A) (hA : A ≠ "")
    (hreg : mapHas sys0.room.clients A = true)
    (htype : msg.prop "type" = some (.str "update")) (hstate : msg.prop "state" = some S)
    (hS : S.truthy = true)
    (hq : leftAlone fails A (step fails sys0 (.message c (some msg) now)) evs = true) :
    (∃ ws, mapGet (run fails (step fails sys0 (.message c (some msg) now)) evs).room.clients A
        = some ⟨ws, now, S⟩)
    ∧ (∀ (c' : Conn) (t : Int), t - now ≤ 20000 →
        newCalls (run fails (step fails sys0 (.message c (some msg) now)) evs).room
            (heartbeat fails c' t
              (run fails (step fails sys0 (.message c (some msg) now)) evs).room)
          = Effect.send c' pingMsg
            :: (pruneCalls t
                  (run fails (step fails sys0 (.message c (some msg) now)) evs).room.clients
                  (run fails (step fails sys0 (.message c (some msg) now)) evs).room.clients
                ++ sendsTo
                    (heartbeat fails c' t
                      (run fails (step fails sys0 (.message c (some msg) now)) evs).room).clients
                    (stateMsg (collectStates
                      (heartbeat fails c' t
                        (run fails (step fails sys0 (.message c (some msg) now))
                          evs).room).clients)).stringify)
        ∧ HoldsOnceFor A S
            (heartbeat fails c' t
              (run fails (step fails sys0 (.message c (some msg) now)) evs).room).clients
            (collectStates
              (heartbeat fails c' t
                (run fails (step fails sys0 (.message c (some msg) now)) evs).room).clients))
    ∧ (∀ (c' : Conn) (t : Int) (hello : Json) (id' : String) (cid : Option String),
        hello.prop "type" = some (.str "hello") → hello.prop "id" = some (.str id') →
        id' ≠ "" → id' ≠ A →
        newCalls (run fails (step fails sys0 (.message c (some msg) now)) evs).room
            (onMessage fails c' t (some hello)
              (run fails (step fails sys0 (.message c (some msg) now)) evs).room cid).1
          = [Effect.send c' (stateMsg (collectStates
              (onMessage fails c' t (some hello)
                (run fails (step fails sys0 (.message c (some msg) now)) evs).room
                cid).1.clients)).stringify]
        ∧ HoldsOnceFor A S
            (onMessage fails c' t (some hello)
              (run fails (step fails sys0 (.message c (some msg) now)) evs).room cid).1.clients
            (collectStates
              (onMessage fails c' t (some hello)
                (run fails (step fails sys0 (.message c (some msg) now)) evs).room
                cid).1.clients))
    ∧ newCalls (run fails initSystem joinAB).room (run fails initSystem joinThenUpdate).room
        = [Effect.send 1 (stateMsg [.obj [("x", .num 1)]])]
    ∧ newCalls (run fails initSystem joinThenUpdate).room
          (step fails (run fails initSystem joinThenUpdate) (.tick 0 5000)).room
        = [Effect.send 0 pingMsg, Effect.send 0 (stateMsg [.obj [("x", .num 1)]]),
           Effect.send 1 (stateMsg [.obj [("x", .num 1)]])] := by
  obtain ⟨c0, hc0⟩ := Option.isSome_iff_exists.mp hreg
  have hstep : (step fails sys0 (.message c (some msg) now)).room
      = broadcast fails
          { sys0.room with clients := mapSet sys0.room.clients A ⟨c0.ws, now, S⟩ }
          (stateMsg [S]) (some A) := by
    simp only [step, hlive, if_true, hid]
    rw [onMessage_update fails c now msg S A c0 sys0.room htype hstate hS hA hc0]
  have hg1 : mapGet (step fails sys0 (.message c (some msg) now)).room.clients A
      = some ⟨c0.ws, now, S⟩ := by
    rw [hstep]
    exact mapGet_mapSet_same _ _ _
  have hnd1 := nodup_step fails sys0 (.message c (some msg) now) hnd
  obtain ⟨hg, hndf⟩ := run_leftAlone fails evs _ A ⟨c0.ws, now, S⟩ hnd1 hg1 hq
  refine ⟨⟨c0.ws, hg⟩, ?_, ?_, rfl, rfl⟩
  · intro c' t ht
    have hb := heartbeat_eq fails c' t
      (run fails (step fails sys0 (.message c (some msg) now)) evs).room hndf
    refine ⟨?_, ?_⟩
    · rw [newCalls_of_log fails _ _ _ (congrArg RoomDurableObject.log hb)]
      rw [hb]
    · rw [hb]
      simp only
      have hkeep : mapGet
          ((run fails (step fails sys0 (.message c (some msg) now)) evs).room.clients.filter
            (fun e => !idle t e)) A = some ⟨c0.ws, now, S⟩ := by
        apply mapGet_filter_of_pos _ _ _ _ hg
        have : ¬ (t - now > 20000) := by omega
        simp [idle, this]
      exact holdsOnce_of_get _ A ⟨c0.ws, now, S⟩ (nodup_keys_filter _ _ hndf) hkeep hS
  · intro c' t hello id' cid hty hidh hne hneA
    have ho := onMessage_hello fails c' t hello id'
      (run fails (step fails sys0 (.message c (some msg) now)) evs).room cid hty hidh hne
    refine ⟨?_, ?_⟩
    · rw [ho]
      exact newCalls_of_log fails _ _ [_] rfl
    · rw [ho]
      simp only
      have hkeep : mapGet
          (mapSet (run fails (step fails sys0 (.message c (some msg) now)) evs).room.clients
            id' ⟨c', t, .null⟩) A = some ⟨c0.ws, now, S⟩ := by
        rw [mapGet_mapSet_other _ _ _ _ (Ne.symm hneA)]
        exact hg
      exact holdsOnce_of_get _ A ⟨c0.ws, now, S⟩ (nodup_keys_mapSet _ _ _ hndf) hkeep hS

/-- Witness of C15 amended: after `A` and `B` have joined, `A` publishes `{x:1}` at time 2 and
a tick of socket 1 passes at 5000; the session of `A` still stores `{x:1}`, last seen at 2. -/
theorem C15_truthy_state_retained_until_removal_witness :
    ∃ ws, mapGet (run noFail
        (step noFail (run noFail initSystem joinAB) (.message 0 (some updateX1) 2))
        [.tick 1 5000]).room.clients "A" = some ⟨ws, 2, .obj [("x", .num 1)]⟩ :=
  (C15_truthy_state_retained_until_removal noFail (run noFail initSystem joinAB) 0 2 updateX1
    (.obj [("x", .num 1)]) "A" [.tick 1 5000] (by decide) rfl rfl (by decide) rfl rfl rfl rfl
    rfl).1

/-- C16: every tick of the heartbeat of a connection `server` is the ping, then the prune
pass, then the snapshot pass: the trace grows by one attempted send of the ping on `server`
(registered or not), then the calls of the prune pass, then one state message (written by
`JSON.stringify`) per session left by the prune pass, and the registry is the one left by the
prune pass. The outcome of the ping
is ignored: under any oracle that differs only on the ping, the registry and everything that
follows the ping in the trace (calls and their outcomes) are the same. -/
theorem C16_tick_order_and_ping_failure_ignored (fails : Oracle) (server : Conn) (now : Int)
    (self : RoomDurableObject) :
    heartbeat fails server now self
        = snapshotTick fails (prune fails now
            ⟨self.clients, self.log ++ [⟨Effect.send server pingMsg, fails self.log.length⟩]⟩)
    ∧ (heartbeat fails server now self).clients = (prune fails now self).clients
    ∧ (heartbeat fails server now self).log
        = self.log ++ ⟨Effect.send server pingMsg, fails self.log.length⟩
            :: stamp fails (self.log.length + 1)
                (newCalls self (prune fails now self)
                  ++ sendsTo (prune fails now self).clients
                      (stateMsg (collectStates (prune fails now self).clients)).stringify)
    ∧ (∀ fails' : Oracle, (∀ i, i ≠ self.log.length → fails' i = fails i) →
        (heartbeat fails' server now self).clients = (heartbeat fails server now self).clients
        ∧ (heartbeat fails' server now self).log.drop (self.log.length + 1)
            = (heartbeat fails server now self).log.drop (self.log.length + 1)
        ∧ calls (heartbeat fails' server now self).log
            = calls (heartbeat fails server now self).log) := by
  have hp : prune fails now self
      = ⟨pruneKeep now self.clients self.clients,
          self.log ++ stamp fails self.log.length
            (pruneCalls now self.clients self.clients)⟩ := by
    rw [prune, pruneLoop_eq]
  have hlog : ∀ f : Oracle, (heartbeat f server now self).log
      = self.log ++ ⟨Effect.send server pingMsg, f self.log.length⟩
          :: stamp f (self.log.length + 1)
              (pruneCalls now self.clients self.clients
                ++ sendsTo (pruneKeep now self.clients self.clients)
                    (stateMsg (collectStates (pruneKeep now self.clients self.clients))).stringify) := by
    intro f
    rw [heartbeat_gen]
    rfl
  refine ⟨rfl, ?_, ?_, ?_⟩
  · rw [heartbeat_gen, hp]
  · rw [hlog fails, newCalls_of_log fails self _ _ (congrArg RoomDurableObject.log hp), hp]
  · intro fails' hsame
    refine ⟨?_, ?_, ?_⟩
    · rw [heartbeat_gen, heartbeat_gen]
    · rw [hlog fails', hlog fails, drop_after_one, drop_after_one]
      exact stamp_congr fails' fails _ _ (fun i hi => hsame i (by omega))
    · rw [heartbeat_gen, heartbeat_gen]
      simp only [calls_append_stamp]

/-- Witness of C16: in `roomIdle` at time 20001, whether the ping of socket 1 throws or not,
the tick removes `A` and the trace after the ping is the same. -/
theorem C16_tick_order_and_ping_failure_ignored_witness :
    (heartbeat firstFails 1 20001 roomIdle).clients = (heartbeat noFail 1 20001 roomIdle).clients
    ∧ (heartbeat firstFails 1 20001 roomIdle).log.drop 1
        = (heartbeat noFail 1 20001 roomIdle).log.drop 1 :=
  ⟨((C16_tick_order_and_ping_failure_ignored noFail 1 20001 roomIdle).2.2.2 firstFails
      (by intro i hi; simpa [firstFails, noFail, roomIdle] using hi)).1,
    ((C16_tick_order_and_ping_failure_ignored noFail 1 20001 roomIdle).2.2.2 firstFails
      (by intro i hi; simpa [firstFails, noFail, roomIdle] using hi)).2.1⟩

/-- C17: for every registry and every update message (whatever its state) handled on a
connection identified as `id`, the keys of the registry and their order are unchanged, every
key other than `id` keeps its session (connection, lastSeen and state), and the entry of `id`
keeps its connection handle; the connection keeps its identity. -/
theorem C17_update_touches_only_sender_entry (fails : Oracle) (server : Conn) (now : Int)
    (msg : Json) (self : RoomDurableObject) (id : String)
    (htype : msg.prop "type" = some (.str "update")) :
    keys (onMessage fails server now (some msg) self (some id)).1.clients = keys self.clients
    ∧ (∀ k, k ≠ id →
        mapGet (onMessage fails server now (some msg) self (some id)).1.clients k
          = mapGet self.clients k)
    ∧ (mapGet (onMessage fails server now (some msg) self (some id)).1.clients id).map Session.ws
        = (mapGet self.clients id).map Session.ws
    ∧ (onMessage fails server now (some msg) self (some id)).2 = some id := by
  rcases onMessage_cases fails server now (some msg) self (some id) with
    ⟨id', hid, _⟩ | ⟨_, A, c, S, hc, _, hg, _, hout⟩ | ⟨_, hout⟩
  · rw [helloId_eq_none_of_type msg (by rw [htype]; simp)] at hid
    exact Option.noConfusion hid
  · cases hc
    rw [hout]
    refine ⟨keys_mapSet_of_get _ _ c _ hg, ?_, ?_, rfl⟩
    · intro k hk
      exact mapGet_mapSet_other _ _ _ _ hk
    · simp only [broadcast]
      rw [mapGet_mapSet_same, hg]
      rfl
  · rw [hout]
    exact ⟨rfl, fun _ _ => rfl, rfl, rfl⟩

/-- Witness of C17: `A` publishes `{x:2}` in `roomAB`: the keys stay `A`, `B`, the entry of `B`
is untouched and the entry of `A` stays on socket 0. -/
theorem C17_update_touches_only_sender_entry_witness :
    keys (onMessage noFail 0 5 (some updateX2) roomAB (some "A")).1.clients = ["A", "B"]
    ∧ mapGet (onMessage noFail 0 5 (some updateX2) roomAB (some "A")).1.clients "B"
        = some ⟨1, 0, .null⟩ :=
  ⟨(C17_update_touches_only_sender_entry noFail 0 5 updateX2 roomAB "A" rfl).1,
    (C17_update_touches_only_sender_entry noFail 0 5 updateX2 roomAB "A" rfl).2.1 "B"
      (by decide)⟩

/-- C18: in every room state reached from the empty room through any sequence of accept,
message (hello, update or anything else), close and tick events, each stored session state is
`null` or truthy, so it is never a number equal to zero, the empty string or `false`; hence a stored state is
truthy exactly when it is not `null`, and the list gathered by the truthiness filter of
`snapshotTick` and of the hello response is the list of the non-null states. -/
theorem C18_stored_states_null_or_truthy (fails : Oracle) (evs : List Event) :
    (∀ e, e ∈ (run fails initSystem evs).room.clients →
        (e.2.state.isNull = true ∨ e.2.state.truthy = true)
        ∧ (∀ n : Num, n.isZero = true → e.2.state ≠ .num n)
        ∧ e.2.state ≠ .str "" ∧ e.2.state ≠ .bool false
        ∧ (e.2.state.truthy = true ↔ e.2.state.isNull = false))
    ∧ collectStates (run fails initSystem evs).room.clients
        = snapshot (run fails initSystem evs).room.clients := by
  have hok : statesOk (run fails initSystem evs).room.clients = true :=
    (valid_run fails evs initSystem (by simp [initSystem, keys]) rfl).2
  refine ⟨?_, collectStates_eq_snapshot _ hok⟩
  intro e he
  have h := List.all_eq_true.mp hok e he
  simp only [Bool.or_eq_true] at h
  refine ⟨h, ?_, ?_, ?_, ?_⟩
  · intro n hn heq; rw [heq] at h; simp [Json.isNull, Json.truthy, hn] at h
  · intro heq; rw [heq] at h; simp [Json.isNull, Json.truthy] at h
  · intro heq; rw [heq] at h; simp [Json.isNull, Json.truthy] at h
  · cases hs : e.2.state <;> simp [Json.isNull, Json.truthy, hs] at h ⊢ <;> exact h

/-- C19, refuted as stated: sockets 0 and 1 both say hello as `A`, so the entry of `A` is held
by socket 1. An update received on socket 0 then rewrites the `lastSeen` and the state of that
entry, and the close of socket 0 removes it. -/
theorem C19_counterexample_foreign_update_and_close :
    mapGet (run noFail initSystem sameId).room.clients "A" = some ⟨1, 1, .null⟩
    ∧ mapGet (run noFail initSystem (sameId ++ [.message 0 (some updateX2) 2])).room.clients "A"
        = some ⟨1, 2, .obj [("x", .num 2)]⟩
    ∧ mapGet (run noFail initSystem (sameId ++ [.close 0])).room.clients "A" = none :=
  ⟨rfl, rfl, rfl⟩

/-- C19, amended: in every room state reached from the empty room by a sequence of events in
which every hello registers a non-empty id, no connection says hello with an id other than the
one it has, and no hello claims an id held by another connection whose close event is still to
come, an update received on connection `c` changes the session stored under a key only if that
session's connection handle is `c`, and the close of `c` removes (or changes) the session
stored under a key only if that session's connection handle is `c`. -/
theorem C19_disciplined_sessions_touched_by_holder (fails : Oracle) (evs : List Event)
    (hd : disciplined fails initSystem evs = true) (c : Conn) (k : String) :
    (∀ (msg : Json) (now : Int), msg.prop "type" = some (.str "update") →
        mapGet (step fails (run fails initSystem evs) (.message c (some msg) now)).room.clients k
          ≠ mapGet (run fails initSystem evs).room.clients k →
        ∃ s, mapGet (run fails initSystem evs).room.clients k = some s ∧ s.ws = c)
    ∧ (mapGet (step fails (run fails initSystem evs) (.close c)).room.clients k
          ≠ mapGet (run fails initSystem evs).room.clients k →
        ∃ s, mapGet (run fails initSystem evs).room.clients k = some s ∧ s.ws = c) := by
  have h := inv_run fails evs initSystem inv_init hd
  constructor
  · intro msg now htype hch
    by_cases hl : live (run fails initSystem evs) c = true
    · simp only [step, hl, if_true] at hch
      obtain ⟨hid, hhas⟩ := update_changes_only_own_key fails c now msg _ _ htype k hch
      exact inv_holder _ h c k hl hid hhas
    · simp only [step, hl, if_false] at hch
      exact absurd rfl hch
  · intro hch
    by_cases hl : live (run fails initSystem evs) c = true
    · simp only [step, hl, if_true] at hch
      obtain ⟨hid, hhas⟩ := close_changes_only_own_key fails _ _ k hch
      exact inv_holder _ h c k hl hid hhas
    · simp only [step, hl, if_false] at hch
      exact absurd rfl hch

/-- Witness of C19 amended: after `A` and `B` have joined on sockets 0 and 1, the close of
socket 0 removes the entry of `A`, which socket 0 holds. -/
theorem C19_disciplined_sessions_touched_by_holder_witness :
    disciplined noFail initSystem joinAB = true
    ∧ ∃ s, mapGet (run noFail initSystem joinAB).room.clients "A" = some s ∧ s.ws = 0 :=
  ⟨by decide,
    (C19_disciplined_sessions_touched_by_holder noFail joinAB (by decide) 0 "A").2
      (fun h => absurd (congrArg (Option.map Session.lastSeen) h) (by decide))⟩

end SodaPop
